/-
Verification of the sparkplug-explorer ingestion core.

This file gives a shallow embedding, in Lean 4, of the parts of the
repository that the verified properties are about:

* the outbound sequence-number allocator of the Sparkplug client
  (`src/clients/sparkplug/index.ts`, `incrementSeqNum`);
* the topic parser and the ingestion entry point
  (`src/clients/sparkplug/index.ts`, `parseTopic` / `parseCertificateTopic`;
  `src/index.ts`, the `message` handler in `main`);
* the payload codec boundary, the compression envelope, and the inbound
  message handler (`src/clients/sparkplug/index.ts`);
* metric normalization (`src/common/metrics.ts`, `getMetricValue` /
  `resolveMetricName`);
* the priority-ordered micro-batching scheduler and the transactional
  batch committer (`src/index.ts`, `drainQueues` / `enqueueEvent`);
* the stored-value conversion layer (`src/db/repositories.ts`,
  `toStoredValue` / `parseStoredValue`) and the status classifier
  (`src/index.ts`, the two `/status` endpoints).

JavaScript numbers that occur as metric timestamps are modelled as `Int`
(epoch milliseconds); machine integers from the `Long` library are
modelled as `Int` together with the explicit 32-bit truncation that
`Long.toInt` performs.  String primitives (`split`, `startsWith`, `trim`,
`String(..)`, `Number(..)`) are re-implemented over `List Char` with the
semantics they have in JavaScript, so that every definition is executable
and kernel-reducible.
-/
import Mathlib

namespace SparkplugExplorer

/-! ## Sequence-number allocator

Model of `incrementSeqNum` in `src/clients/sparkplug/index.ts`:

```ts
private seq = 0;
private incrementSeqNum(): number {
  if (this.seq == 256) { this.seq = 0; }
  return this.seq++;
}
```

The mutable field `seq` becomes explicit state; one allocation returns the
value handed out and the new state. -/

def incrementSeqNum (seq : Nat) : Nat × Nat :=
  let s := if seq = 256 then 0 else seq
  (s, s + 1)

/-- State of the `seq` field after `n` allocations, starting from the
initial state `seq = 0` of a fresh client. -/
def seqStateAfter : Nat → Nat
  | 0 => 0
  | n + 1 => (incrementSeqNum (seqStateAfter n)).2

/-- Value returned by the `n`-th allocation (0-indexed: `seqValueAt 0` is
the first allocation). -/
def seqValueAt (n : Nat) : Nat :=
  (incrementSeqNum (seqStateAfter n)).1

theorem seqStateAfter_eq (n : Nat) :
    seqStateAfter n = if n = 0 then 0 else (n - 1) % 256 + 1 := by
  induction n with
  | zero => rfl
  | succ n ih =>
    simp only [seqStateAfter, incrementSeqNum]
    rw [ih]
    rcases Nat.eq_zero_or_pos n with h | h
    · subst h; simp
    · have hn : ¬ n = 0 := Nat.pos_iff_ne_zero.mp h
      simp only [hn, if_false, Nat.succ_ne_zero]
      by_cases hm : (n - 1) % 256 + 1 = 256
      · simp only [hm, if_true]
        omega
      · simp only [hm, if_false]
        omega

theorem seqValueAt_eq (n : Nat) : seqValueAt n = n % 256 := by
  unfold seqValueAt incrementSeqNum
  rw [seqStateAfter_eq]
  rcases Nat.eq_zero_or_pos n with h | h
  · subst h; simp
  · have hn : ¬ n = 0 := Nat.pos_iff_ne_zero.mp h
    simp only [hn, if_false]
    by_cases hm : (n - 1) % 256 + 1 = 256
    · simp only [hm, if_true]; omega
    · simp only [hm, if_false]; omega

/-- **C8** — The outbound sequence-number allocator returns 0,1,…,255 in
increasing order (the `n`-th allocation returns `n % 256`, so the first
256 allocations return the 256 distinct values 0–255 in order), the 257th
allocation (index 256) returns 0 again, and every allocation from every
state reachable from the initial state returns a value in 0–255. -/
theorem seq_allocator_wraps :
    (∀ n : Nat, seqValueAt n = n % 256) ∧
    (∀ n : Nat, n < 256 → seqValueAt n = n) ∧
    seqValueAt 256 = 0 ∧
    (∀ n : Nat, seqValueAt n ≤ 255) := by
  refine ⟨seqValueAt_eq, ?_, ?_, ?_⟩
  · intro n hn
    rw [seqValueAt_eq]
    exact Nat.mod_eq_of_lt hn
  · rw [seqValueAt_eq]
  · intro n
    rw [seqValueAt_eq]
    have := Nat.mod_lt n (show 0 < 256 by norm_num)
    omega

/-- Witness for C8: the first allocation returns 0, the 256th returns 255,
the 257th returns 0, and all values are ≤ 255 at a sample index. -/
theorem seq_allocator_wraps_witness :
    seqValueAt 0 = 0 ∧ seqValueAt 255 = 255 ∧ seqValueAt 256 = 0 ∧
      seqValueAt 1000 ≤ 255 :=
  ⟨seq_allocator_wraps.2.1 0 (by decide),
   seq_allocator_wraps.2.1 255 (by decide),
   seq_allocator_wraps.2.2.1,
   seq_allocator_wraps.2.2.2 1000⟩

/-! ## Storage rows

Rows of the three DuckDB tables created in `src/db/schema.ts` and written
by the repositories in `src/db/repositories.ts`.  Timestamps are epoch
milliseconds (`Int`); the `value` column is `varchar` and therefore
`Option String` (NULL-able). -/

structure DeviceRow where
  deviceName : String
  topic : String
  birthTimestamp : Option Int
  deriving Repr, DecidableEq

structure MetricRow where
  id : String
  deviceName : String
  metricName : String
  deriving Repr, DecidableEq

structure ValueRow where
  metricId : String
  ts : Int
  value : Option String
  fromBirth : Bool
  deriving Repr, DecidableEq

structure Store where
  devices : List DeviceRow
  metrics : List MetricRow
  values : List ValueRow
  deriving Repr, DecidableEq

/-! ## Status classifier

Model of the SQL `CASE` expression used identically by the
`/api/devices/status` and `/api/devices/:device/metrics/status` endpoints
in `src/index.ts`:

```sql
case
  when max(v.ts) is null then 'grey'
  when max(v.ts) >= current_timestamp - interval '1 day' then 'green'
  when max(v.ts) >= current_timestamp - interval '7 day' then 'yellow'
  else 'red'
end
```

`now` is `current_timestamp` in epoch milliseconds and `last` the value of
`max(v.ts)` (none when the entity has no recorded value). -/

inductive StatusColor where
  | grey | green | yellow | red
  deriving Repr, DecidableEq

def msPerDay : Int := 86400000

def statusColor (now : Int) : Option Int → StatusColor
  | none => .grey
  | some last =>
    if now - msPerDay ≤ last then .green
    else if now - 7 * msPerDay ≤ last then .yellow
    else .red

/-- `max(v.ts)` over all values of all metrics of a device (the
`left join device_metrics / left join device_metric_values` of the device
endpoint): none when the device has no recorded value. -/
def deviceLastTs (st : Store) (device : String) : Option Int :=
  ((st.values.filter (fun v =>
      (st.metrics.filter (fun m => m.deviceName = device)).any
        (fun m => m.id = v.metricId))).map (·.ts)).max?

/-- `max(v.ts)` over the values of a single metric of a device (the joins
of the metric endpoint). -/
def metricLastTs (st : Store) (device metric : String) : Option Int :=
  ((st.values.filter (fun v =>
      (st.metrics.filter (fun m =>
          m.deviceName = device ∧ m.metricName = metric)).any
        (fun m => m.id = v.metricId))).map (·.ts)).max?

/-- Device-scope status, as returned by `/api/devices/status`. -/
def deviceStatus (st : Store) (now : Int) (device : String) : StatusColor :=
  statusColor now (deviceLastTs st device)

/-- Metric-scope status, as returned by
`/api/devices/:device/metrics/status`. -/
def metricStatus (st : Store) (now : Int) (device metric : String) :
    StatusColor :=
  statusColor now (metricLastTs st device metric)

/-- **C6** — The status classifier maps each queried entity to exactly one
color as a function of the most recent recorded value timestamp, in both
scopes: grey when no value exists; green when the latest timestamp is
within 1 day of evaluation time (in particular exactly 23 hours before);
yellow when within 7 days but not within 1 day (in particular exactly 25
hours before); red otherwise. -/
theorem status_classifier_correct :
    (∀ st now device,
      deviceStatus st now device = statusColor now (deviceLastTs st device)) ∧
    (∀ st now device metric,
      metricStatus st now device metric
        = statusColor now (metricLastTs st device metric)) ∧
    (∀ now, statusColor now none = .grey) ∧
    (∀ now last, now - msPerDay ≤ last →
      statusColor now (some last) = .green) ∧
    (∀ now last, last < now - msPerDay → now - 7 * msPerDay ≤ last →
      statusColor now (some last) = .yellow) ∧
    (∀ now last, last < now - 7 * msPerDay →
      statusColor now (some last) = .red) ∧
    (∀ now, statusColor now (some (now - 23 * 3600000)) = .green) ∧
    (∀ now, statusColor now (some (now - 25 * 3600000)) = .yellow) := by
  refine ⟨fun _ _ _ => rfl, fun _ _ _ _ => rfl, fun _ => rfl, ?_, ?_, ?_, ?_, ?_⟩
  · intro now last h
    simp only [statusColor, if_pos h]
  · intro now last h1 h2
    rw [statusColor, if_neg (by omega), if_pos h2]
  · intro now last h
    rw [statusColor, if_neg (by unfold msPerDay at *; omega),
      if_neg (by omega)]
  · intro now
    rw [statusColor, if_pos (by unfold msPerDay; omega)]
  · intro now
    rw [statusColor, if_neg (by unfold msPerDay; omega),
      if_pos (by unfold msPerDay; omega)]

/-- Witness for C6: evaluated at `now = 0` — no value is grey, 23 hours
old is green, 25 hours old is yellow, 8 days old is red. -/
theorem status_classifier_correct_witness :
    statusColor 0 none = .grey ∧
    statusColor 0 (some (-(23 * 3600000))) = .green ∧
    statusColor 0 (some (-(25 * 3600000))) = .yellow ∧
    statusColor 0 (some (-(8 * 86400000))) = .red := by
  refine ⟨status_classifier_correct.2.2.1 0, ?_, ?_, ?_⟩
  · have h := status_classifier_correct.2.2.2.2.2.2.1 0
    simpa using h
  · have h := status_classifier_correct.2.2.2.2.2.2.2 0
    simpa using h
  · exact status_classifier_correct.2.2.2.2.2.1 0 (-(8 * 86400000))
      (by unfold msPerDay; omega)

/-! ## Ingestion scheduler (ordering)

Model of the two queues and the drain loop of `src/index.ts`:

```ts
const birthQueue: InboundEvent[] = [];
const dataQueue: InboundEvent[] = [];
const MAX_BATCH_MESSAGES = 500;

function enqueueEvent(e) {
  if (e.type === "DBIRTH") birthQueue.push(e);
  else dataQueue.push(e);
  ...
}

async function drainQueues() {
  ...
  while (birthQueue.length || dataQueue.length) {
    const processingBirth = birthQueue.length > 0;
    const activeQueue = processingBirth ? birthQueue : dataQueue;
    const batch = [];
    while (batch.length < MAX_BATCH_MESSAGES && activeQueue.length)
      batch.push(activeQueue.shift()!);
    ...commit batch...
  }
}
```

`EvKind` is `InboundEvent.type`; the `idx` field is a ghost enqueue index
recording the global order in which events were enqueued (events are
enqueued as soon as decoded, so this is also wire-decode order).  A trace
interleaves enqueues (which may come from concurrent devices, in any
order) with drain-loop iterations; the awaited storage I/O inside one
iteration is the only suspension point, so one iteration is one atomic
step and enqueues happen between steps. -/

inductive EvKind where
  | dbirth | ddata
  deriving Repr, DecidableEq

structure SchedEvent where
  kind : EvKind
  topic : String
  idx : Nat
  deriving Repr, DecidableEq

def MAX_BATCH_MESSAGES : Nat := 500

structure SchedState where
  birthQueue : List SchedEvent
  dataQueue : List SchedEvent
  committed : List SchedEvent
  deriving Repr, DecidableEq

def SchedState.init : SchedState := ⟨[], [], []⟩

/-- `enqueueEvent`: route by event type into the matching FIFO queue. -/
def schedEnqueue (e : SchedEvent) (s : SchedState) : SchedState :=
  match e.kind with
  | .dbirth => { s with birthQueue := s.birthQueue ++ [e] }
  | .ddata => { s with dataQueue := s.dataQueue ++ [e] }

/-- One iteration of the `while` loop of `drainQueues`: while the birth
queue is non-empty only birth events are drained (up to the batch cap);
data events are drained only once the birth queue is empty.  The batch is
committed by appending it to the committed sequence. -/
def schedDrainStep (s : SchedState) : SchedState :=
  if s.birthQueue ≠ [] then
    { s with
      birthQueue := s.birthQueue.drop MAX_BATCH_MESSAGES
      committed := s.committed ++ s.birthQueue.take MAX_BATCH_MESSAGES }
  else if s.dataQueue ≠ [] then
    { s with
      dataQueue := s.dataQueue.drop MAX_BATCH_MESSAGES
      committed := s.committed ++ s.dataQueue.take MAX_BATCH_MESSAGES }
  else s

inductive SchedAction where
  | enq (e : SchedEvent)
  | drain
  deriving Repr, DecidableEq

def schedStep (s : SchedState) : SchedAction → SchedState
  | .enq e => schedEnqueue e s
  | .drain => schedDrainStep s

def schedRun (s : SchedState) : List SchedAction → SchedState
  | [] => s
  | a :: rest => schedRun (schedStep s a) rest

/-- Well-formed traces: the ghost enqueue indices are strictly increasing
along the trace (each event is enqueued as soon as it is decoded, so the
`n`-th decoded event has the `n`-th index); drain steps may interleave
arbitrarily. -/
def wfTrace : Nat → List SchedAction → Bool
  | _, [] => true
  | n, .enq e :: rest => n ≤ e.idx && wfTrace (e.idx + 1) rest
  | n, .drain :: rest => wfTrace n rest

/-- Scheduler invariant: queues hold only their own kind, all indices are
below the freshness bound, the committed sequence never places an update
before an earlier-enqueued definition, and every queued definition was
enqueued after every committed update. -/
structure SchedInv (n : Nat) (s : SchedState) : Prop where
  birth_kind : ∀ e ∈ s.birthQueue, e.kind = .dbirth
  data_kind : ∀ e ∈ s.dataQueue, e.kind = .ddata
  idx_lt : ∀ e ∈ s.birthQueue ++ s.dataQueue ++ s.committed, e.idx < n
  committed_ord : ∀ i j (hi : i < s.committed.length)
    (hj : j < s.committed.length), i < j →
    (s.committed.get ⟨i, hi⟩).kind = .ddata →
    (s.committed.get ⟨j, hj⟩).kind = .dbirth →
    (s.committed.get ⟨i, hi⟩).idx < (s.committed.get ⟨j, hj⟩).idx
  birth_after_data : ∀ d ∈ s.birthQueue, ∀ u ∈ s.committed,
    u.kind = .ddata → u.idx < d.idx

theorem schedInv_init : SchedInv 0 SchedState.init := by
  constructor <;> simp [SchedState.init]

theorem schedInv_mono {n m : Nat} {s : SchedState} (h : SchedInv n s)
    (hnm : n ≤ m) : SchedInv m s := by
  refine ⟨h.birth_kind, h.data_kind, ?_, h.committed_ord, h.birth_after_data⟩
  intro e he
  exact lt_of_lt_of_le (h.idx_lt e he) hnm

theorem schedInv_enqueue {n : Nat} {s : SchedState} {e : SchedEvent}
    (h : SchedInv n s) (hfresh : n ≤ e.idx) :
    SchedInv (e.idx + 1) (schedEnqueue e s) := by
  have hlt : ∀ x ∈ s.birthQueue ++ s.dataQueue ++ s.committed,
      x.idx < e.idx + 1 := by
    intro x hx
    exact lt_of_lt_of_le (h.idx_lt x hx) (by omega)
  obtain ⟨ek, et, ei⟩ := e
  cases ek with
  | dbirth =>
    refine ⟨?_, h.data_kind, ?_, h.committed_ord, ?_⟩
    · intro x hx
      simp only [schedEnqueue, List.mem_append, List.mem_singleton] at hx
      rcases hx with hx | rfl
      · exact h.birth_kind x hx
      · rfl
    · intro x hx
      simp only [schedEnqueue, List.mem_append, List.mem_singleton] at hx
      rcases hx with ((hx | rfl) | hx) | hx
      · exact hlt x (by simp [hx])
      · omega
      · exact hlt x (by simp [hx])
      · exact hlt x (by simp [hx])
    · intro d hd u hu huk
      simp only [schedEnqueue, List.mem_append, List.mem_singleton] at hd hu
      rcases hd with hd | rfl
      · exact h.birth_after_data d hd u hu huk
      · exact lt_of_lt_of_le (h.idx_lt u (by simp [hu])) hfresh
  | ddata =>
    refine ⟨h.birth_kind, ?_, ?_, h.committed_ord, ?_⟩
    · intro x hx
      simp only [schedEnqueue, List.mem_append, List.mem_singleton] at hx
      rcases hx with hx | rfl
      · exact h.data_kind x hx
      · rfl
    · intro x hx
      simp only [schedEnqueue, List.mem_append, List.mem_singleton] at hx
      rcases hx with (hx | (hx | rfl)) | hx
      · exact hlt x (by simp [hx])
      · exact hlt x (by simp [hx])
      · omega
      · exact hlt x (by simp [hx])
    · intro d hd u hu huk
      simp only [schedEnqueue] at hd hu
      exact h.birth_after_data d hd u hu huk

/-- Appending a batch of definitions (all enqueued after every committed
update) preserves the committed-order property. -/
theorem committed_ord_append_births {c b : List SchedEvent}
    (hord : ∀ i j (hi : i < c.length) (hj : j < c.length), i < j →
      (c.get ⟨i, hi⟩).kind = .ddata → (c.get ⟨j, hj⟩).kind = .dbirth →
      (c.get ⟨i, hi⟩).idx < (c.get ⟨j, hj⟩).idx)
    (hb : ∀ e ∈ b, e.kind = .dbirth)
    (hafter : ∀ d ∈ b, ∀ u ∈ c, u.kind = .ddata → u.idx < d.idx) :
    ∀ i j (hi : i < (c ++ b).length) (hj : j < (c ++ b).length), i < j →
      ((c ++ b).get ⟨i, hi⟩).kind = .ddata →
      ((c ++ b).get ⟨j, hj⟩).kind = .dbirth →
      ((c ++ b).get ⟨i, hi⟩).idx < ((c ++ b).get ⟨j, hj⟩).idx := by
  intro i j hi hj hij hdi hbj
  simp only [List.get_eq_getElem] at hdi hbj ⊢
  rcases lt_or_ge i c.length with hic | hic
  · rcases lt_or_ge j c.length with hjc | hjc
    · rw [List.getElem_append_left hic] at hdi ⊢
      rw [List.getElem_append_left hjc] at hbj ⊢
      have := hord i j hic hjc hij
      simp only [List.get_eq_getElem] at this
      exact this hdi hbj
    · rw [List.getElem_append_left hic] at hdi ⊢
      rw [List.getElem_append_right hjc]
      exact hafter _ (List.getElem_mem _) _ (List.getElem_mem _) hdi
  · rcases lt_or_ge j c.length with hjc | hjc
    · omega
    · rw [List.getElem_append_right hic] at hdi
      have hib : i - c.length < b.length := by
        simp only [List.length_append] at hi; omega
      have := hb _ (List.getElem_mem hib)
      rw [hdi] at this
      exact absurd this (by simp)

/-- Appending a batch of updates preserves the committed-order property
vacuously (no definition follows them yet). -/
theorem committed_ord_append_datas {c b : List SchedEvent}
    (hord : ∀ i j (hi : i < c.length) (hj : j < c.length), i < j →
      (c.get ⟨i, hi⟩).kind = .ddata → (c.get ⟨j, hj⟩).kind = .dbirth →
      (c.get ⟨i, hi⟩).idx < (c.get ⟨j, hj⟩).idx)
    (hb : ∀ e ∈ b, e.kind = .ddata) :
    ∀ i j (hi : i < (c ++ b).length) (hj : j < (c ++ b).length), i < j →
      ((c ++ b).get ⟨i, hi⟩).kind = .ddata →
      ((c ++ b).get ⟨j, hj⟩).kind = .dbirth →
      ((c ++ b).get ⟨i, hi⟩).idx < ((c ++ b).get ⟨j, hj⟩).idx := by
  intro i j hi hj hij hdi hbj
  simp only [List.get_eq_getElem] at hdi hbj ⊢
  rcases lt_or_ge j c.length with hjc | hjc
  · have hic : i < c.length := by omega
    rw [List.getElem_append_left hic] at hdi ⊢
    rw [List.getElem_append_left hjc] at hbj ⊢
    have := hord i j hic hjc hij
    simp only [List.get_eq_getElem] at this
    exact this hdi hbj
  · rw [List.getElem_append_right hjc] at hbj
    have hjb : j - c.length < b.length := by
      simp only [List.length_append] at hj; omega
    have := hb _ (List.getElem_mem hjb)
    rw [hbj] at this
    exact absurd this (by simp)

theorem schedInv_drain {n : Nat} {s : SchedState} (h : SchedInv n s) :
    SchedInv n (schedDrainStep s) := by
  unfold schedDrainStep
  by_cases hb : s.birthQueue ≠ []
  · rw [if_pos hb]
    refine ⟨?_, h.data_kind, ?_, ?_, ?_⟩
    · intro e he
      exact h.birth_kind e (List.mem_of_mem_drop he)
    · intro e he
      simp only [List.mem_append] at he
      rcases he with (he | he) | (he | he)
      · exact h.idx_lt e (by simp [List.mem_of_mem_drop he])
      · exact h.idx_lt e (by simp [he])
      · exact h.idx_lt e (by simp [he])
      · exact h.idx_lt e (by simp [List.mem_of_mem_take he])
    · exact committed_ord_append_births h.committed_ord
        (fun e he => h.birth_kind e (List.mem_of_mem_take he))
        (fun d hd u hu huk =>
          h.birth_after_data d (List.mem_of_mem_take hd) u hu huk)
    · intro d hd u hu huk
      simp only [List.mem_append] at hu
      rcases hu with hu | hu
      · exact h.birth_after_data d (List.mem_of_mem_drop hd) u hu huk
      · have := h.birth_kind u (List.mem_of_mem_take hu)
        rw [huk] at this
        exact absurd this (by simp)
  · rw [if_neg hb]
    by_cases hd : s.dataQueue ≠ []
    · rw [if_pos hd]
      push_neg at hb
      refine ⟨?_, ?_, ?_, ?_, ?_⟩
      · intro e he
        rw [hb] at he
        exact absurd he (List.not_mem_nil e)
      · intro e he
        exact h.data_kind e (List.mem_of_mem_drop he)
      · intro e he
        simp only [List.mem_append] at he
        rcases he with (he | he) | (he | he)
        · exact h.idx_lt e (by simp [he])
        · exact h.idx_lt e (by simp [List.mem_of_mem_drop he])
        · exact h.idx_lt e (by simp [he])
        · exact h.idx_lt e (by simp [List.mem_of_mem_take he])
      · exact committed_ord_append_datas h.committed_ord
          (fun e he => h.data_kind e (List.mem_of_mem_take he))
      · intro d hd'
        rw [hb] at hd'
        exact absurd hd' (List.not_mem_nil d)
    · rw [if_neg hd]
      exact h

theorem schedInv_run {n : Nat} {s : SchedState} {acts : List SchedAction}
    (h : SchedInv n s) (hwf : wfTrace n acts = true) :
    ∃ m, SchedInv m (schedRun s acts) := by
  induction acts generalizing n s with
  | nil => exact ⟨n, h⟩
  | cons a rest ih =>
    cases a with
    | enq e =>
      simp only [wfTrace, Bool.and_eq_true, decide_eq_true_eq] at hwf
      exact ih (schedInv_enqueue h hwf.1) hwf.2
    | drain =>
      simp only [wfTrace] at hwf
      exact ih (schedInv_drain h) hwf

/-- **C1** — For every well-formed trace of enqueues (from concurrently
arriving, interleaved devices) and drain-loop iterations, the committed
sequence never contains an update (DDATA) event at an earlier position
than a definition (DBIRTH) event that was enqueued strictly before it:
whenever an update sits before a definition in commit order, that
definition was enqueued strictly after the update.  Equivalently, every
definition enqueued strictly before an update is committed before it. -/
theorem scheduler_orders_definitions_first
    (acts : List SchedAction) (hwf : wfTrace 0 acts = true) :
    ∀ i j (hi : i < (schedRun SchedState.init acts).committed.length)
      (hj : j < (schedRun SchedState.init acts).committed.length),
      i < j →
      ((schedRun SchedState.init acts).committed.get ⟨i, hi⟩).kind = .ddata →
      ((schedRun SchedState.init acts).committed.get ⟨j, hj⟩).kind = .dbirth →
      ((schedRun SchedState.init acts).committed.get ⟨i, hi⟩).idx
        < ((schedRun SchedState.init acts).committed.get ⟨j, hj⟩).idx := by
  obtain ⟨m, hinv⟩ := schedInv_run schedInv_init hwf
  exact hinv.committed_ord

/-- Witness for C1: the trace U₀, drain, D₁, drain commits U₀ at position
0 and D₁ at position 1; the theorem instantiated there yields
`idx U₀ = 0 < 1 = idx D₁`. -/
theorem scheduler_orders_definitions_first_witness :
    wfTrace 0 [SchedAction.enq ⟨.ddata, "t0", 0⟩, SchedAction.drain,
      SchedAction.enq ⟨.dbirth, "t1", 1⟩, SchedAction.drain] = true ∧
    (0 : Nat) < 1 :=
  ⟨by decide,
   scheduler_orders_definitions_first
     [SchedAction.enq ⟨.ddata, "t0", 0⟩, SchedAction.drain,
      SchedAction.enq ⟨.dbirth, "t1", 1⟩, SchedAction.drain]
     (by decide) 0 1 (by decide) (by decide) (by decide)
     (by decide) (by decide)⟩

/-! ## JavaScript string primitives

`String.prototype.split` (single-character separator),
`String.prototype.startsWith` and `Array.prototype.join`, re-implemented
over `List Char` so that every use is executable by kernel reduction. -/

/-- `cs.split(sep)` on character lists: JavaScript keeps empty segments
and yields `[""]` on the empty string. -/
def jsSplitCharsAux (sep : Char) : List Char → List Char → List (List Char)
  | [], cur => [cur.reverse]
  | c :: rest, cur =>
    if c = sep then cur.reverse :: jsSplitCharsAux sep rest []
    else jsSplitCharsAux sep rest (c :: cur)

/-- JavaScript `s.split(sep)` for a one-character separator. -/
def jsSplit (s : String) (sep : Char) : List String :=
  (jsSplitCharsAux sep s.data []).map String.mk

/-- JavaScript `s.startsWith(prefix)`. -/
def jsStartsWith (s pre : String) : Bool :=
  pre.data.isPrefixOf s.data

/-- JavaScript `parts.join("/")`. -/
def jsJoinSlash : List String → String
  | [] => ""
  | [x] => x
  | x :: rest => x ++ "/" ++ jsJoinSlash rest

/-! ## Topic parser

Model of `parseTopic` / `parseCertificateTopic` in
`src/clients/sparkplug/index.ts`.  `parts[i]` on a JavaScript array yields
`undefined` past the end, so the four leading fields are `Option String`
(the `as MessageContext["messageType"]` cast performs no validation, so
`messageType` is an arbitrary string when present). -/

structure MessageContext where
  ns : Option String       -- `namespace` in the source
  groupId : Option String
  messageType : Option String
  edgeNodeId : Option String
  deviceId : Option String
  otherParts : List String
  deriving Repr, DecidableEq

def parseTopic (topic : String) : MessageContext :=
  let parts := jsSplit topic '/'
  { ns := parts.get? 0
    groupId := parts.get? 1
    messageType := parts.get? 2
    edgeNodeId := parts.get? 3
    deviceId := if parts.length ≥ 5 then parts.get? 4 else none
    otherParts := if parts.length > 5 then parts.drop 5 else [] }

def parseCertificateTopic (topic : String) : MessageContext :=
  parseTopic (jsJoinSlash ((jsSplit topic '/').drop 2))

/-! ## Ingestion entry point

Model of the `message` handler registered in `main` (`src/index.ts`):

```ts
if (topic.startsWith(config.sparkplug.systemTopic)) {
  const t = parseCertificateTopic(topic);
  if (t.otherParts.length === 0 && t.messageType === "DBIRTH")
    enqueueEvent({ type: "DBIRTH", ... });
} else if (topic.startsWith("spBv1.0/")) {
  const t = parseTopic(topic);
  if (t.messageType === "DDATA")
    enqueueEvent({ type: "DDATA", ... });
}
```

The handler either enqueues one event of a determined kind or does
nothing; it never touches storage. -/

def classifyInbound (systemTopic topic : String) : Option EvKind :=
  if jsStartsWith topic systemTopic then
    let t := parseCertificateTopic topic
    if t.otherParts.length = 0 ∧ t.messageType = some "DBIRTH" then
      some .dbirth
    else none
  else if jsStartsWith topic "spBv1.0/" then
    let t := parseTopic topic
    if t.messageType = some "DDATA" then some .ddata else none
  else none

/-- The handler's effect on the scheduler queues and on storage: enqueue
via `enqueueEvent` when a kind was selected, otherwise leave everything
unchanged. -/
def handleInbound (systemTopic topic : String) (idx : Nat) (s : SchedState)
    (st : Store) : SchedState × Store :=
  match classifyInbound systemTopic topic with
  | some k => (schedEnqueue ⟨k, topic, idx⟩ s, st)
  | none => (s, st)

/-- **C10 (counterexample)** — The claim "an event is enqueued iff (i) the
topic starts with the system-topic prefix and its certificate parse is
DBIRTH with no residual segments, or (ii) the topic starts with
`spBv1.0/` and parses to DDATA" is false: with system topic
`spBv1.0/g`, the topic `spBv1.0/g/DDATA/n/d` satisfies (ii) — it starts
with `spBv1.0/` and parses to message type DDATA — yet the handler
enqueues nothing, because the `else if` never tests branch (ii) once the
system-topic prefix matched. -/
theorem ingestion_gate_claim_false :
    jsStartsWith "spBv1.0/g/DDATA/n/d" "spBv1.0/" = true ∧
    (parseTopic "spBv1.0/g/DDATA/n/d").messageType = some "DDATA" ∧
    classifyInbound "spBv1.0/g" "spBv1.0/g/DDATA/n/d" = none := by
  refine ⟨by decide, by decide, by decide⟩

/-- **C10 (amended)** — For every decoded inbound message, an event is
enqueued iff either (i) the topic starts with the configured system-topic
prefix and, after stripping the 2-segment certificate prefix, parses to
messageType DBIRTH with zero residual segments (a DBIRTH event), or (ii)
the topic does **not** start with the system-topic prefix, starts with
`spBv1.0/`, and parses to messageType DDATA (a DDATA event); in every
other case — including all other message types (NBIRTH, NDEATH, DDEATH,
NDATA, NCMD, DCMD, STATE) — nothing is enqueued and the queues and
storage are left unchanged. -/
theorem ingestion_gate_amended (systemTopic topic : String) (idx : Nat)
    (s : SchedState) (st : Store) :
    (classifyInbound systemTopic topic = some .dbirth ↔
      (jsStartsWith topic systemTopic = true ∧
        (parseCertificateTopic topic).otherParts = [] ∧
        (parseCertificateTopic topic).messageType = some "DBIRTH")) ∧
    (classifyInbound systemTopic topic = some .ddata ↔
      (jsStartsWith topic systemTopic = false ∧
        jsStartsWith topic "spBv1.0/" = true ∧
        (parseTopic topic).messageType = some "DDATA")) ∧
    (classifyInbound systemTopic topic = none →
      handleInbound systemTopic topic idx s st = (s, st)) ∧
    (∀ k, classifyInbound systemTopic topic = some k →
      handleInbound systemTopic topic idx s st
        = (schedEnqueue ⟨k, topic, idx⟩ s, st)) := by
  refine ⟨⟨?_, ?_⟩, ⟨?_, ?_⟩, ?_, ?_⟩
  · intro h
    unfold classifyInbound at h
    by_cases h1 : jsStartsWith topic systemTopic = true
    · rw [if_pos h1] at h
      by_cases h2 : (parseCertificateTopic topic).otherParts.length = 0 ∧
          (parseCertificateTopic topic).messageType = some "DBIRTH"
      · exact ⟨h1, List.length_eq_zero.mp h2.1, h2.2⟩
      · rw [if_neg h2] at h; cases h
    · rw [if_neg h1] at h
      by_cases h2 : jsStartsWith topic "spBv1.0/" = true
      · rw [if_pos h2] at h
        by_cases h3 : (parseTopic topic).messageType = some "DDATA"
        · rw [if_pos h3] at h; exact absurd h (by decide)
        · rw [if_neg h3] at h; cases h
      · rw [if_neg h2] at h; cases h
  · rintro ⟨h1, h2, h3⟩
    unfold classifyInbound
    rw [if_pos h1, if_pos ⟨by simp [h2], h3⟩]
  · intro h
    unfold classifyInbound at h
    by_cases h1 : jsStartsWith topic systemTopic = true
    · rw [if_pos h1] at h
      by_cases h2 : (parseCertificateTopic topic).otherParts.length = 0 ∧
          (parseCertificateTopic topic).messageType = some "DBIRTH"
      · rw [if_pos h2] at h; exact absurd h (by decide)
      · rw [if_neg h2] at h; cases h
    · rw [if_neg h1] at h
      by_cases h2 : jsStartsWith topic "spBv1.0/" = true
      · rw [if_pos h2] at h
        by_cases h3 : (parseTopic topic).messageType = some "DDATA"
        · exact ⟨by simpa using h1, h2, h3⟩
        · rw [if_neg h3] at h; cases h
      · rw [if_neg h2] at h; cases h
  · rintro ⟨h1, h2, h3⟩
    unfold classifyInbound
    rw [if_neg (by simp [h1]), if_pos h2, if_pos h3]
  · intro h
    unfold handleInbound
    rw [h]
  · intro k h
    unfold handleInbound
    rw [h]

/-- Witness for C10 (amended): at the documented configuration
`systemTopic = "spBv1.0/sp_group/STATE"`, a DBIRTH state-channel topic is
enqueued as a DBIRTH event, and a plain DDATA topic is enqueued as a
DDATA event onto the data queue, leaving storage unchanged. -/
theorem ingestion_gate_amended_witness :
    classifyInbound "spBv1.0/sp_group/STATE"
      "spBv1.0/sp_group/STATE/grp/DBIRTH/node/dev" = some .dbirth ∧
    handleInbound "spBv1.0/sp_group/STATE" "spBv1.0/grp/DDATA/node/dev" 7
      SchedState.init ⟨[], [], []⟩
      = (schedEnqueue ⟨.ddata, "spBv1.0/grp/DDATA/node/dev", 7⟩
          SchedState.init, ⟨[], [], []⟩) := by
  constructor
  · have h := (ingestion_gate_amended "spBv1.0/sp_group/STATE"
      "spBv1.0/sp_group/STATE/grp/DBIRTH/node/dev" 0 SchedState.init
      ⟨[], [], []⟩).1
    exact h.mpr ⟨by decide, by decide, by decide⟩
  · exact (ingestion_gate_amended "spBv1.0/sp_group/STATE"
      "spBv1.0/grp/DDATA/node/dev" 7 SchedState.init ⟨[], [], []⟩).2.2.2
      .ddata (by decide)

/-! ## Wire payloads and metrics

Model of the `sparkplug-payload` data shapes (`UPayload`, `UMetric`,
`UTemplate`) consumed by the repository.  The binary protobuf codec and
the `pako` compression primitives are external libraries, modelled from
the spec at their contract boundary (see `sparkDecode` below); byte
strings are therefore represented symbolically: a byte string is either a
valid encoding of a payload, a DEFLATE or GZIP compression of another
byte string, or junk.  `Long` values are carried as exact integers with
the 32-bit truncation of `Long.toInt` made explicit where the source
calls it. -/

/-- A metric alias: either a `Long` object or a plain JS number
(`resolveMetricName` distinguishes the two via `Long.isLong`). -/
inductive AliasVal where
  | along (n : Int)
  | anum (n : Int)
  deriving Repr, DecidableEq

mutual

inductive UPayload where
  | mk (timestamp : Option Int) (metrics : List UMetric) (seq : Option Int)
       (uuid : Option String) (body : Option WireBytes)

inductive UMetric where
  | mk (name : Option String) (aliasV : Option AliasVal) (type : String)
       (value : Option MetricVal) (timestamp : Option Int)

/-- The dynamic type of `UMetric.value`: a JS number, a `Long`, a boolean,
a string, or a nested template. -/
inductive MetricVal where
  | num (n : Int)
  | long (n : Int)
  | bool (b : Bool)
  | str (s : String)
  | template (t : UTemplate)

inductive UTemplate where
  | mk (templateRef : String) (isDefinition : Option Bool)
       (metrics : List UMetric)

/-- Modelled from the spec: a byte string at the codec boundary.  The
Protocol Codec (the external `sparkplug-payload` protobuf library) is
specified by `decode(bytes) -> Payload | fails(DecodeError)` and
`encode(Payload) -> bytes` with `decode ∘ encode = id`; the external
`pako` primitives by `inflate ∘ deflate = id` and `ungzip ∘ gzip = id`,
failing on anything that is not a corresponding compression. -/
inductive WireBytes where
  | encPayload (p : UPayload)
  | deflateOf (b : WireBytes)
  | gzipOf (b : WireBytes)
  | junk (n : Nat)

end

def UPayload.timestamp : UPayload → Option Int | .mk t _ _ _ _ => t
def UPayload.metrics : UPayload → List UMetric | .mk _ m _ _ _ => m
def UPayload.seq : UPayload → Option Int | .mk _ _ s _ _ => s
def UPayload.uuid : UPayload → Option String | .mk _ _ _ u _ => u
def UPayload.body : UPayload → Option WireBytes | .mk _ _ _ _ b => b

def UMetric.name : UMetric → Option String | .mk n _ _ _ _ => n
-- `alias` is a reserved word in Lean; the source field `metric.alias`
-- is modelled as `aliasV`.
def UMetric.aliasV : UMetric → Option AliasVal | .mk _ a _ _ _ => a
def UMetric.type : UMetric → String | .mk _ _ t _ _ => t
def UMetric.value : UMetric → Option MetricVal | .mk _ _ _ v _ => v
def UMetric.timestamp : UMetric → Option Int | .mk _ _ _ _ t => t

def UTemplate.templateRef : UTemplate → String | .mk r _ _ => r
def UTemplate.isDefinition : UTemplate → Option Bool | .mk _ d _ => d
def UTemplate.metrics : UTemplate → List UMetric | .mk _ _ m => m

/-- Modelled from the spec: `decode` of the Protocol Codec — total inverse
of `encode` on valid encodings, `DecodeError` (none) on everything else. -/
def sparkDecode : WireBytes → Option UPayload
  | .encPayload p => some p
  | _ => none

/-- The reserved compressed-envelope marker `SPBV1.0_COMPRESSED`. -/
def compressedUuid : String := "SPBV1.0_COMPRESSED"

/-! ## Metric normalization (`src/common/metrics.ts`)

`getMetricValue` may *throw* (a `TypeError` from a property access on a
non-object, or the explicit `Unsupported value` error in `makeNumber`),
so it is embedded in `Except`; `Except.ok none` is the `return null`
path (a dropped metric). -/

/-- `makeNumber` — `typeof value === "number"` passes the number through;
a `Long` (an object with `low`/`high` fields) is converted with
`toNumber()`; everything else throws (`in` on a primitive or `null`
throws a `TypeError`; other objects reach the explicit `throw`). -/
def makeNumber : Option MetricVal → Except String Int
  | some (.num n) => .ok n
  | some (.long n) => .ok n
  | some _ => .error "Unsupported value"
  | none => .error "TypeError"

/-- `getMetricValue` — resolves a metric to a usable scalar, `none` when
the metric is dropped.  The `Template` case recurses into the child
metric named `value` of a `baja:Status` template instance. -/
def getMetricValue (m : UMetric) : Except String (Option MetricVal) :=
  match m.type with
  | "Int8" | "Int16" | "Int32" | "Int64"
  | "UInt8" | "UInt16" | "UInt32" | "UInt64"
  | "Float" | "Double" =>
    (makeNumber m.value).map (fun n => some (.num n))
  | "Boolean" | "String" => .ok m.value
  | "Template" =>
    match hv : m.value with
    | some (.template t) =>
      if t.isDefinition = some true then .ok none
      else if jsStartsWith t.templateRef "baja:Status" then
        match hf : t.metrics.find? (fun c => c.name = some "value") with
        | some c => getMetricValue c
        | none => .ok none  -- "Template does not have value metric" warning
      else .ok none          -- "Unsupported template" warning
    | _ => .error "TypeError" -- property access on a non-template value
  | _ => .ok none
termination_by sizeOf m
decreasing_by
  have hc : c ∈ t.metrics := List.mem_of_find?_eq_some hf
  have h1 : sizeOf c < sizeOf t.metrics := List.sizeOf_lt_of_mem hc
  have h2 : sizeOf t.metrics < sizeOf t := by
    cases t; simp [UTemplate.metrics]; try omega
  have h3 : sizeOf (m.value) < sizeOf m := by
    cases m; simp [UMetric.value]; try omega
  rw [hv] at h3
  simp only [Option.some.sizeOf_spec, MetricVal.template.sizeOf_spec] at h3
  omega

/-- `resolveMetricName` — prefers a truthy alias (a `Long` object is
always truthy; the number 0 is falsy) rendered as a decimal string, with
`Long.toInt` truncating to a signed 32-bit value; otherwise the literal
name.  `Option.none` is JS `undefined`. -/
def int32of (n : Int) : Int := (n + 2 ^ 31) % 2 ^ 32 - 2 ^ 31

def aliasTruthy : Option AliasVal → Bool
  | none => false
  | some (.along _) => true
  | some (.anum n) => n ≠ 0

def aliasToString : AliasVal → String
  | .along n => toString (int32of n)  -- metric.alias.toInt().toString()
  | .anum n => toString n             -- metric.alias.toString()

def resolveMetricName (m : UMetric) : Option String :=
  if aliasTruthy m.aliasV then m.aliasV.map aliasToString else m.name

/-- **C4** — `getMetricValue` on a Template metric: a type definition
yields no value; an instance whose `templateRef` starts with the
recognized Status prefix (`baja:Status`) and which contains a child
metric named `value` has the child's value extracted recursively; a
Status-shaped instance without a `value` child, and any template whose
reference does not start with the Status prefix, yield no value (dropped
with a warning). -/
theorem template_value_extraction (m : UMetric) (t : UTemplate)
    (hty : m.type = "Template") (hval : m.value = some (.template t)) :
    (t.isDefinition = some true → getMetricValue m = .ok none) ∧
    (t.isDefinition ≠ some true →
      jsStartsWith t.templateRef "baja:Status" = true →
      (∀ c, t.metrics.find? (fun c => c.name = some "value") = some c →
        getMetricValue m = getMetricValue c) ∧
      (t.metrics.find? (fun c => c.name = some "value") = none →
        getMetricValue m = .ok none)) ∧
    (t.isDefinition ≠ some true →
      jsStartsWith t.templateRef "baja:Status" = false →
      getMetricValue m = .ok none) := by
  have hunf : getMetricValue m =
      (if t.isDefinition = some true then Except.ok none
       else if jsStartsWith t.templateRef "baja:Status" then
         match hf : t.metrics.find? (fun c => c.name = some "value") with
         | some c => getMetricValue c
         | none => Except.ok none
       else Except.ok none) := by
    rw [getMetricValue.eq_def]
    obtain ⟨nm, al, ty, v, ts⟩ := m
    simp only [UMetric.type] at hty
    simp only [UMetric.value] at hval
    subst hty
    subst hval
    rfl
  refine ⟨?_, ?_, ?_⟩
  · intro hdef
    rw [hunf, if_pos hdef]
  · intro hdef hpre
    rw [hunf, if_neg hdef, if_pos hpre]
    constructor
    · intro c hc
      rw [hc]
    · intro hc
      rw [hc]
  · intro hdef hpre
    rw [hunf, if_neg hdef, if_neg (by simp [hpre])]

/-- A `baja:Status` template instance whose `value` child is an Int32
metric with value 42 (the example of the claim). -/
def statusChildMetric : UMetric :=
  .mk (some "value") none "Int32" (some (.num 42)) none

def statusTemplate : UTemplate :=
  .mk "baja:Status_numeric" none [statusChildMetric]

def statusTemplateMetric : UMetric :=
  .mk (some "temp") none "Template" (some (.template statusTemplate)) none

/-- Witness for C4: the Status template instance with Int32 child `value`
42 extracts to the child's value, 42; a definition template and a
non-Status template yield no value. -/
theorem template_value_extraction_witness :
    getMetricValue statusTemplateMetric = getMetricValue statusChildMetric ∧
    getMetricValue statusChildMetric = .ok (some (.num 42)) ∧
    getMetricValue (.mk (some "d") none "Template"
      (some (.template (.mk "baja:Status_numeric" (some true) []))) none)
      = .ok none ∧
    getMetricValue (.mk (some "o") none "Template"
      (some (.template (.mk "other:Shape" none []))) none) = .ok none := by
  refine ⟨?_, ?_, ?_, ?_⟩
  · exact (template_value_extraction statusTemplateMetric statusTemplate
      rfl rfl).2.1 (by decide) (by decide) |>.1 statusChildMetric (by rfl)
  · rw [getMetricValue.eq_def]; rfl
  · exact (template_value_extraction (.mk (some "d") none "Template"
      (some (.template (.mk "baja:Status_numeric" (some true) []))) none)
      (.mk "baja:Status_numeric" (some true) []) rfl rfl).1 rfl
  · exact (template_value_extraction (.mk (some "o") none "Template"
      (some (.template (.mk "other:Shape" none []))) none)
      (.mk "other:Shape" none []) rfl rfl).2.2 (by decide) (by decide)

/-! ## Compression envelope (`src/clients/sparkplug/index.ts`)

`compressPayload`, `decompressPayload` and `maybeDecompressPayload`,
with the external `pako` primitives modelled at their contract boundary
(see `WireBytes`).  JavaScript `toUpperCase` is mapped over the
characters. -/

def jsToUpper (s : String) : String :=
  .mk (s.data.map Char.toUpper)

structure PayloadOptions where
  algorithm : Option String
  compress : Option Bool
  deriving Repr, DecidableEq

/-- Modelled from the spec: `pako.inflate` — inverse of `pako.deflate`,
throws on any byte string that is not a DEFLATE stream. -/
def pakoInflate : WireBytes → Except String WireBytes
  | .deflateOf b => .ok b
  | _ => .error "pako: incorrect header check"

/-- Modelled from the spec: `pako.ungzip` — inverse of `pako.gzip`,
throws on any byte string that is not a GZIP stream. -/
def pakoUngzip : WireBytes → Except String WireBytes
  | .gzipOf b => .ok b
  | _ => .error "pako: incorrect header check"

/-- `decodePayload` — the codec wrapper that rethrows any library decode
failure as `"Failed to decode Sparkplug payload"`. -/
def decodePayloadE (b : WireBytes) : Except String UPayload :=
  match sparkDecode b with
  | some p => .ok p
  | none => .error "Failed to decode Sparkplug payload"

/-- `compressPayload` — builds the envelope payload carrying the
compressed body; its `metrics` carry the `algorithm` side-metric exactly
when an algorithm was passed in the options (an empty string is falsy and
counts as absent); DEFLATE is the default. -/
def compressPayload (payload : WireBytes) (options : Option PayloadOptions) :
    Except String UPayload :=
  let algorithm : Option String :=
    match options with
    | none => none
    | some o =>
      match o.algorithm with
      | some a => if a ≠ "" then some a else none
      | none => none
  match algorithm with
  | none =>
    .ok (.mk none [] none (some compressedUuid)
      (some (.deflateOf payload)))
  | some a =>
    if jsToUpper a = "DEFLATE" then
      .ok (.mk none
        [.mk (some "algorithm") none "String" (some (.str (jsToUpper a)))
          none]
        none (some compressedUuid) (some (.deflateOf payload)))
    else if jsToUpper a = "GZIP" then
      .ok (.mk none
        [.mk (some "algorithm") none "String" (some (.str (jsToUpper a)))
          none]
        none (some compressedUuid) (some (.gzipOf payload)))
    else .error ("Unknown or unsupported algorithm " ++ a)

/-- `decompressPayload` — reads the `algorithm` side-metric (a string
value; anything else leaves the algorithm null, i.e. DEFLATE) and
decompresses the body (`payload.body || new Uint8Array()`, the empty
byte string being an invalid stream). -/
def decompressPayload (p : UPayload) : Except String WireBytes :=
  let body := p.body.getD (.junk 0)
  let algorithm : Option String :=
    match p.metrics.find? (fun m => m.name = some "algorithm") with
    | some am =>
      match am.value with
      | some (.str s) => some s
      | _ => none
    | none => none
  match algorithm with
  | none => pakoInflate body
  | some a =>
    if jsToUpper a = "DEFLATE" then pakoInflate body
    else if jsToUpper a = "GZIP" then pakoUngzip body
    else .error ("Unknown or unsupported algorithm " ++ a)

/-- `maybeDecompressPayload` — a payload whose declared uuid equals the
reserved compressed marker is decompressed and its body decoded again;
any other payload passes through. -/
def maybeDecompressPayload (p : UPayload) : Except String UPayload :=
  if p.uuid = some compressedUuid then
    (decompressPayload p).bind decodePayloadE
  else .ok p

/-! ## Inbound message handler (`init` in `src/clients/sparkplug/index.ts`)

```ts
this.client.on("message", (topic, message) => {
  let decoded: UPayload;
  try {
    decoded = this.decodePayload(message);
  } catch (e) {
    this.logger.debug("Received message with unsupported payload version: " + topic);
    return;
  }
  let payload = this.maybeDecompressPayload(decoded);
  ...
  this.emit("message", topic, payload, parseTopic(topic));
});
```

Only the *outer* decode is inside the `try`; `maybeDecompressPayload` is
outside it, so an exception it throws escapes the handler.  `ok none` is
the dropped-message path (debug log, return); `ok (some p)` means the
payload is emitted to collaborators; `error` means the handler threw. -/

def handleMessage (wire : WireBytes) : Except String (Option UPayload) :=
  match sparkDecode wire with
  | none => .ok none
  | some decoded => (maybeDecompressPayload decoded).map some

/-- **C3 (counterexample)** — The claim that *all* malformed inputs,
including payloads carrying the compressed envelope whose decompression
or inner decode fails, are dropped without surfacing an error is false:
a well-formed envelope payload with the compressed marker but no body
decodes fine at the outer layer, then `maybeDecompressPayload` (outside
the `try`) throws, and the exception escapes the message handler instead
of the message being dropped. -/
theorem decode_failure_nonfatal_claim_false :
    handleMessage (.encPayload (.mk none [] none (some compressedUuid) none))
      = .error "pako: incorrect header check" := rfl

/-- **C3 (amended)** — A failure to decode the *outer* wire payload is
non-fatal: the message is dropped (logged at debug level) and processing
continues, for every malformed wire input.  However, for a successfully
decoded payload carrying the compressed envelope, a decompression or
inner-decode failure is thrown out of the message handler rather than
being dropped. -/
theorem decode_failure_nonfatal_amended :
    (∀ b, sparkDecode b = none → handleMessage b = .ok none) ∧
    (∀ b p, sparkDecode b = some p →
      handleMessage b = (maybeDecompressPayload p).map some) ∧
    (∀ b p e, sparkDecode b = some p → maybeDecompressPayload p = .error e →
      handleMessage b = .error e) := by
  refine ⟨?_, ?_, ?_⟩
  · intro b h
    unfold handleMessage
    rw [h]
  · intro b p h
    unfold handleMessage
    rw [h]
  · intro b p e h1 h2
    unfold handleMessage
    rw [h1]
    show (maybeDecompressPayload p).map some = .error e
    rw [h2]
    rfl

/-- Witness for C3 (amended): junk bytes are dropped (`ok none`) and a
decodable uncompressed payload passes through. -/
theorem decode_failure_nonfatal_amended_witness :
    handleMessage (.junk 5) = .ok none ∧
    handleMessage (.encPayload (.mk (some 1) [] (some 0) none none))
      = .ok (some (.mk (some 1) [] (some 0) none none)) :=
  ⟨decode_failure_nonfatal_amended.1 (.junk 5) rfl,
   by
    have h := decode_failure_nonfatal_amended.2.1
      (.encPayload (.mk (some 1) [] (some 0) none none))
      (.mk (some 1) [] (some 0) none none) rfl
    rw [h]
    rfl⟩

/-! ## Compression round-trip (C5) -/

/-- Encoding with compression: encode the payload, wrap it with
`compressPayload`, and encode the resulting envelope for the wire. -/
def encodeWithCompression (p : UPayload) (options : Option PayloadOptions) :
    Except String WireBytes :=
  (compressPayload (.encPayload p) options).map .encPayload

/-- Wire-side decoding: decode the envelope, then decompress-if-needed. -/
def decodeWithDecompression (b : WireBytes) : Except String UPayload :=
  (decodePayloadE b).bind maybeDecompressPayload

/-- **C5** — For every payload `P`, compressing at encode time and then
decoding with decompression reproduces `P` exactly (hence its metric set
and values), for both supported algorithms, with DEFLATE as the default
when no algorithm is given (and hence no algorithm side-metric present). -/
theorem compression_roundtrip (p : UPayload) (options : Option PayloadOptions)
    (hopts : options = none ∨
      (∃ c, options = some ⟨none, c⟩) ∨
      (∃ c, options = some ⟨some "DEFLATE", c⟩) ∨
      (∃ c, options = some ⟨some "GZIP", c⟩)) :
    (encodeWithCompression p options).bind decodeWithDecompression
      = .ok p := by
  rcases hopts with h | ⟨c, h⟩ | ⟨c, h⟩ | ⟨c, h⟩ <;> subst h <;> rfl

/-- Witness for C5: a sample payload with one metric round-trips through
the default (absent), DEFLATE and GZIP algorithms. -/
theorem compression_roundtrip_witness :
    (encodeWithCompression
        (.mk (some 10) [.mk (some "m") none "Int32" (some (.num 1)) none]
          (some 3) none none) (some ⟨some "GZIP", some true⟩)).bind
      decodeWithDecompression
      = .ok (.mk (some 10) [.mk (some "m") none "Int32" (some (.num 1)) none]
          (some 3) none none) :=
  compression_roundtrip _ (some ⟨some "GZIP", some true⟩)
    (Or.inr (Or.inr (Or.inr ⟨some true, rfl⟩)))

/-! ## Batch staging (the DBIRTH loop of `drainQueues` in `src/index.ts`)

```ts
for (const m of evt.payload.metrics || []) {
  const name = resolveMetricName(m);
  if (!name) continue;
  const id = metricId(deviceId, name);
  const val = getMetricValue(m, logger);
  // This must go above the newMetrics.push to avoid undsired metrics
  if (val === null || val === undefined) continue;
  newMetrics.push({ deviceName: deviceId, metricName: name });
  const tstamp = tsHelper(m.timestamp);
  metricValues.push({ metricId: id, ts: tstamp, value: val, fromBirth: true });
  metricsInBatch++;
}
```

`ts` (`src/common/metrics.ts`) throws a `TypeError` on a missing
timestamp (`undefined.toNumber()`), and `getMetricValue` can throw, so
staging is `Except`-valued. -/

def metricId (deviceName metricName : String) : String :=
  deviceName ++ "/" ++ metricName

/-- `ts` — converts a metric/payload timestamp (number or `Long`) to a
`Date`; a missing timestamp throws (`timestamp.toNumber()` on
`undefined`). -/
def ts : Option Int → Except String Int
  | some t => .ok t
  | none => .error "TypeError"

structure StagedMetric where
  deviceName : String
  metricName : String
  deriving Repr, DecidableEq

structure StagedMetricValue where
  metricId : String
  ts : Int
  value : MetricVal
  fromBirth : Bool

def stageBirthMetrics (deviceId : String) :
    List UMetric → Except String (List StagedMetric × List StagedMetricValue)
  | [] => .ok ([], [])
  | m :: rest =>
    match resolveMetricName m with
    | none => stageBirthMetrics deviceId rest
    | some name =>
      if name = "" then stageBirthMetrics deviceId rest
      else
        (getMetricValue m).bind fun val =>
          match val with
          | none => stageBirthMetrics deviceId rest
          | some v =>
            (ts m.timestamp).bind fun tstamp =>
              (stageBirthMetrics deviceId rest).map fun staged =>
                (⟨deviceId, name⟩ :: staged.1,
                 ⟨metricId deviceId name, tstamp, v, true⟩ :: staged.2)

/-- The definition row a metric contributes, if any: none when the
resolved name is falsy, when the resolved value is null/undefined, or
when staging would have thrown before reaching it. -/
def stagedDefOf (deviceId : String) (m : UMetric) : Option StagedMetric :=
  match resolveMetricName m with
  | none => none
  | some name =>
    if name = "" then none
    else
      match getMetricValue m with
      | .ok (some _) =>
        match m.timestamp with
        | some _ => some ⟨deviceId, name⟩
        | none => none
      | _ => none

/-- The value row a metric contributes, if any. -/
def stagedValOf (deviceId : String) (m : UMetric) : Option StagedMetricValue :=
  match resolveMetricName m with
  | none => none
  | some name =>
    if name = "" then none
    else
      match getMetricValue m with
      | .ok (some v) =>
        match m.timestamp with
        | some t => some ⟨metricId deviceId name, t, v, true⟩
        | none => none
      | _ => none

/-- Helper: a successful staging run produces exactly the per-metric
contributions, in payload order. -/
theorem stageBirthMetrics_eq_filterMap (deviceId : String)
    (ms : List UMetric) (res : List StagedMetric × List StagedMetricValue)
    (h : stageBirthMetrics deviceId ms = .ok res) :
    res.1 = ms.filterMap (stagedDefOf deviceId) ∧
    res.2 = ms.filterMap (stagedValOf deviceId) := by
  induction ms generalizing res with
  | nil =>
    simp only [stageBirthMetrics, Except.ok.injEq] at h
    simp [← h]
  | cons m rest ih =>
    rw [stageBirthMetrics] at h
    rw [List.filterMap_cons, List.filterMap_cons]
    cases hn : resolveMetricName m with
    | none =>
      simp only [hn] at h
      have hdm : stagedDefOf deviceId m = none := by
        simp only [stagedDefOf, hn]
      have hvm : stagedValOf deviceId m = none := by
        simp only [stagedValOf, hn]
      rw [hdm, hvm]
      exact ih res h
    | some name =>
      simp only [hn] at h
      by_cases hname : name = ""
      · rw [if_pos hname] at h
        have hdm : stagedDefOf deviceId m = none := by
          simp only [stagedDefOf, hn, if_pos hname]
        have hvm : stagedValOf deviceId m = none := by
          simp only [stagedValOf, hn, if_pos hname]
        rw [hdm, hvm]
        exact ih res h
      · rw [if_neg hname] at h
        cases hgv : getMetricValue m with
        | error e =>
          rw [hgv] at h
          exact absurd h (by simp [Except.bind])
        | ok val =>
          rw [hgv] at h
          cases val with
          | none =>
            simp only [Except.bind] at h
            have hdm : stagedDefOf deviceId m = none := by
              simp only [stagedDefOf, hn, if_neg hname, hgv]
            have hvm : stagedValOf deviceId m = none := by
              simp only [stagedValOf, hn, if_neg hname, hgv]
            rw [hdm, hvm]
            exact ih res h
          | some v =>
            simp only [Except.bind] at h
            cases hts : m.timestamp with
            | none =>
              rw [hts] at h
              exact absurd h (by simp [ts, Except.bind])
            | some t =>
              rw [hts] at h
              simp only [ts, Except.bind] at h
              cases hrest : stageBirthMetrics deviceId rest with
              | error e =>
                rw [hrest] at h
                exact absurd h (by simp [Except.map])
              | ok staged =>
                rw [hrest] at h
                simp only [Except.map, Except.ok.injEq] at h
                obtain ⟨h1, h2⟩ := ih staged hrest
                have hdm : stagedDefOf deviceId m
                    = some ⟨deviceId, name⟩ := by
                  simp only [stagedDefOf, hn, if_neg hname, hgv, hts]
                have hvm : stagedValOf deviceId m
                    = some ⟨metricId deviceId name, t, v, true⟩ := by
                  simp only [stagedValOf, hn, if_neg hname, hgv, hts]
                rw [hdm, hvm]
                subst h
                simp [h1, h2]

/-- **C7** — When staging a definition (DBIRTH) event, a metric whose
resolved value is null or undefined is excluded before definition
registration: the staged definition rows and value rows are exactly the
per-metric contributions of the usable metrics, and a metric whose value
resolves to null/undefined — or whose resolved name is falsy —
contributes neither a metric-definition row nor a metric-value row. -/
theorem birth_staging_excludes_unusable (deviceId : String)
    (ms : List UMetric) (defs : List StagedMetric)
    (vals : List StagedMetricValue)
    (h : stageBirthMetrics deviceId ms = .ok (defs, vals)) :
    defs = ms.filterMap (stagedDefOf deviceId) ∧
    vals = ms.filterMap (stagedValOf deviceId) ∧
    (∀ m ∈ ms, getMetricValue m = .ok none →
      stagedDefOf deviceId m = none ∧ stagedValOf deviceId m = none) ∧
    (∀ m ∈ ms, (resolveMetricName m = none ∨ resolveMetricName m = some "") →
      stagedDefOf deviceId m = none ∧ stagedValOf deviceId m = none) := by
  obtain ⟨h1, h2⟩ := stageBirthMetrics_eq_filterMap deviceId ms (defs, vals) h
  refine ⟨h1, h2, ?_, ?_⟩
  · intro m _ hm
    constructor
    · cases hn : resolveMetricName m with
      | none => simp only [stagedDefOf, hn]
      | some name =>
        by_cases hname : name = ""
        · simp only [stagedDefOf, hn, if_pos hname]
        · simp only [stagedDefOf, hn, if_neg hname, hm]
    · cases hn : resolveMetricName m with
      | none => simp only [stagedValOf, hn]
      | some name =>
        by_cases hname : name = ""
        · simp only [stagedValOf, hn, if_pos hname]
        · simp only [stagedValOf, hn, if_neg hname, hm]
  · intro m _ hm
    rcases hm with hm | hm
    · exact ⟨by simp only [stagedDefOf, hm], by simp only [stagedValOf, hm]⟩
    · exact ⟨by simp [stagedDefOf, hm], by simp [stagedValOf, hm]⟩

/-- Witness for C7: a DBIRTH with one usable Int32 metric, one
unsupported DateTime metric (value resolves to null) and one metric with
no name stages exactly one definition row and one value row. -/
theorem birth_staging_excludes_unusable_witness :
    stageBirthMetrics "dev"
      [.mk (some "good") none "Int32" (some (.num 7)) (some 100),
       .mk (some "when") none "DateTime" (some (.num 5)) (some 100),
       .mk none none "Int32" (some (.num 9)) (some 100)]
      = .ok ([⟨"dev", "good"⟩], [⟨"dev/good", 100, .num 7, true⟩]) ∧
    [UMetric.mk (some "good") none "Int32" (some (.num 7)) (some 100),
       .mk (some "when") none "DateTime" (some (.num 5)) (some 100),
       .mk none none "Int32" (some (.num 9)) (some 100)].filterMap
      (stagedDefOf "dev") = [⟨"dev", "good"⟩] := by
  have heval : stageBirthMetrics "dev"
      [.mk (some "good") none "Int32" (some (.num 7)) (some 100),
       .mk (some "when") none "DateTime" (some (.num 5)) (some 100),
       .mk none none "Int32" (some (.num 9)) (some 100)]
      = .ok ([⟨"dev", "good"⟩], [⟨"dev/good", 100, .num 7, true⟩]) := by
    rw [stageBirthMetrics]
    show ((getMetricValue (.mk (some "good") none "Int32" (some (.num 7))
      (some 100))).bind _) = _
    rw [getMetricValue.eq_def]
    show ((stageBirthMetrics "dev" [.mk (some "when") none "DateTime"
      (some (.num 5)) (some 100), .mk none none "Int32" (some (.num 9))
      (some 100)]).map _) = _
    rw [stageBirthMetrics]
    show ((getMetricValue (.mk (some "when") none "DateTime" (some (.num 5))
      (some 100))).bind _).map _ = _
    rw [getMetricValue.eq_def]
    show ((stageBirthMetrics "dev" [.mk none none "Int32" (some (.num 9))
      (some 100)]).map _) = _
    rw [stageBirthMetrics]
    rfl
  refine ⟨heval, ?_⟩
  have h := birth_staging_excludes_unusable "dev"
    [.mk (some "good") none "Int32" (some (.num 7)) (some 100),
     .mk (some "when") none "DateTime" (some (.num 5)) (some 100),
     .mk none none "Int32" (some (.num 9)) (some 100)]
    [⟨"dev", "good"⟩] [⟨"dev/good", 100, .num 7, true⟩] heval
  exact h.1.symm

/-! ## Batch committer (`src/index.ts` lines 225–249, `src/db/repositories.ts`)

```ts
await connRef.run("BEGIN TRANSACTION");
try {
  for (const d of newDevices) await deviceRepo.upsert({...});
  await metricRepo.insertMany(newMetrics);
  await metricValueRepo.insertMany(metricValues);
  await connRef.run("COMMIT");
} catch (err) {
  failed = true;
  await connRef.run("ROLLBACK").catch(() => {});
  ... // batch is NOT pushed back onto any queue
}
```

A storage failure in any of the three steps is injected through a
Boolean per step; rollback restores the pre-transaction store. -/

structure StagedDevice where
  deviceName : String
  topic : String
  birthTimestamp : Int
  deriving Repr, DecidableEq

/-- `JSON.stringify` of a `Long` object (the defensive last line of
`toStoredValue`; never produced by normal ingestion). -/
def jsonStringifyLong (n : Int) : String :=
  let un := n % 2 ^ 64
  let low := int32of (un % 2 ^ 32)
  let high := int32of (un / 2 ^ 32)
  "\x7b\"low\":" ++ toString low ++ ",\"high\":" ++ toString high ++
    ",\"unsigned\":false\x7d"

/-- `toStoredValue` applied to a staged metric value (`string` passes
through, `number`/`boolean` are rendered with `String(v)`, any other
object falls to `JSON.stringify`). -/
def toStoredValueMV : MetricVal → Option String
  | .str s => some s
  | .num n => some (toString n)
  | .bool b => some (cond b "true" "false")
  | .long n => some (jsonStringifyLong n)
  | .template _ => some "\x7b\x7d"

/-- `DeviceRepository.upsert` — `insert ... on conflict(device_name) do
update set topic=excluded.topic, birth_timestamp=coalesce(
excluded.birth_timestamp, devices.birth_timestamp)`. -/
def deviceUpsert (st : Store) (name topic : String) (birth : Option Int) :
    Store :=
  if st.devices.any (fun r => r.deviceName = name) then
    { st with
      devices := st.devices.map (fun r =>
        if r.deviceName = name then
          ⟨r.deviceName, topic, (birth.orElse fun _ => r.birthTimestamp)⟩
        else r) }
  else { st with devices := st.devices ++ [⟨name, topic, birth⟩] }

/-- `DeviceMetricRepository.insertMany` — deduplicates the incoming list
by id and inserts with `on conflict(id) do nothing`. -/
def insertMetricDefs (st : Store) (defs : List StagedMetric) : Store :=
  { st with
    metrics := defs.foldl (fun acc d =>
      let id := metricId d.deviceName d.metricName
      if acc.any (fun r => r.id = id) then acc
      else acc ++ [⟨id, d.deviceName, d.metricName⟩]) st.metrics }

/-- `DeviceMetricValueRepository.insertMany` — appends one row per staged
value with the stored-value conversion applied. -/
def insertMetricValues (st : Store) (vals : List StagedMetricValue) :
    Store :=
  { st with
    values := st.values ++ vals.map (fun v =>
      ⟨v.metricId, v.ts, toStoredValueMV v.value, v.fromBirth⟩) }

/-- One batch commit: the three steps run inside a single transaction;
`f1`/`f2`/`f3` inject a storage failure into the device, definition and
value step respectively; any failure rolls the whole transaction back
(result store = input store) and reports `failed = true`. -/
def commitBatch (st : Store) (devs : List StagedDevice)
    (defs : List StagedMetric) (vals : List StagedMetricValue)
    (f1 f2 f3 : Bool) : Store × Bool :=
  if f1 then (st, true)
  else
    let st1 := devs.foldl (fun acc d =>
      deviceUpsert acc d.deviceName d.topic (some d.birthTimestamp)) st
    if f2 then (st, true)
    else
      let st2 := insertMetricDefs st1 defs
      if f3 then (st, true)
      else (insertMetricValues st2 vals, false)

/-- One iteration of the drain loop with commit outcome `failed`: the
batch was already shifted off its queue before the transaction began, and
the `catch` block does not push it back, so the queue effect is the same
whether the commit succeeded or failed; only the committed sequence
differs. -/
def schedDrainStepF (s : SchedState) (failed : Bool) : SchedState :=
  if s.birthQueue ≠ [] then
    { birthQueue := s.birthQueue.drop MAX_BATCH_MESSAGES
      dataQueue := s.dataQueue
      committed := if failed then s.committed
        else s.committed ++ s.birthQueue.take MAX_BATCH_MESSAGES }
  else if s.dataQueue ≠ [] then
    { birthQueue := s.birthQueue
      dataQueue := s.dataQueue.drop MAX_BATCH_MESSAGES
      committed := if failed then s.committed
        else s.committed ++ s.dataQueue.take MAX_BATCH_MESSAGES }
  else s

/-- **C2** — Commit of one batch is all-or-nothing: if any of the three
steps (device upserts, metric-definition inserts, metric-value inserts)
fails, the whole transaction is rolled back — storage afterwards equals
storage before, containing no device, definition or value row from the
batch — the failure is reported, and the batch is discarded without
being requeued (the queues after a failed iteration equal the queues
after a successful one).  When no step fails, all three steps are applied
together. -/
theorem batch_commit_atomic (st : Store) (devs : List StagedDevice)
    (defs : List StagedMetric) (vals : List StagedMetricValue)
    (f1 f2 f3 : Bool) (hfail : f1 = true ∨ f2 = true ∨ f3 = true) :
    (commitBatch st devs defs vals f1 f2 f3).1 = st ∧
    (commitBatch st devs defs vals f1 f2 f3).2 = true ∧
    (∀ s : SchedState,
      (schedDrainStepF s true).birthQueue
        = (schedDrainStepF s false).birthQueue ∧
      (schedDrainStepF s true).dataQueue
        = (schedDrainStepF s false).dataQueue) ∧
    (∀ g1 g2 g3 : Bool, g1 = false → g2 = false → g3 = false →
      commitBatch st devs defs vals g1 g2 g3
        = (insertMetricValues (insertMetricDefs
            (devs.foldl (fun acc d =>
              deviceUpsert acc d.deviceName d.topic (some d.birthTimestamp))
              st) defs) vals, false)) := by
  refine ⟨?_, ?_, ?_, ?_⟩
  · cases f1 <;> cases f2 <;> cases f3 <;> simp_all [commitBatch]
  · cases f1 <;> cases f2 <;> cases f3 <;> simp_all [commitBatch]
  · intro s
    unfold schedDrainStepF
    by_cases hb : s.birthQueue ≠ []
    · rw [if_pos hb, if_pos hb]
      exact ⟨rfl, rfl⟩
    · rw [if_neg hb, if_neg hb]
      by_cases hd : s.dataQueue ≠ []
      · rw [if_pos hd, if_pos hd]
        exact ⟨rfl, rfl⟩
      · rw [if_neg hd, if_neg hd]
        exact ⟨rfl, rfl⟩
  · intro g1 g2 g3 h1 h2 h3
    subst h1; subst h2; subst h3
    rfl

/-- Witness for C2: a failure injected into the value-insert step (the
third storage call) leaves a store with a pre-existing device unchanged —
zero devices, definitions and values from the batch — while the
successful run inserts all three. -/
theorem batch_commit_atomic_witness :
    (commitBatch ⟨[⟨"old", "t", none⟩], [], []⟩
        [⟨"dev", "spBv1.0/g/STATE/x/dev", 5⟩] [⟨"dev", "m"⟩]
        [⟨"dev/m", 5, .num 1, true⟩] false false true).1
      = ⟨[⟨"old", "t", none⟩], [], []⟩ ∧
    (commitBatch ⟨[⟨"old", "t", none⟩], [], []⟩
        [⟨"dev", "spBv1.0/g/STATE/x/dev", 5⟩] [⟨"dev", "m"⟩]
        [⟨"dev/m", 5, .num 1, true⟩] false false true).2 = true := by
  have h := batch_commit_atomic ⟨[⟨"old", "t", none⟩], [], []⟩
    [⟨"dev", "spBv1.0/g/STATE/x/dev", 5⟩] [⟨"dev", "m"⟩]
    [⟨"dev/m", 5, .num 1, true⟩] false false true
    (Or.inr (Or.inr rfl))
  exact ⟨h.1, h.2.1⟩

/-! ## Stored-value conversion (`src/db/repositories.ts`)

```ts
function toStoredValue(v: string | number | boolean | null): string | null {
  if (v === null || v === undefined) return null;
  if (typeof v === "string") return v;
  if (typeof v === "number" || typeof v === "boolean") return String(v);
  return JSON.stringify(v);
}

function parseStoredValue(v: any): string | number | boolean | null {
  if (v === null || v === undefined) return null;
  if (typeof v !== "string") return v as any;
  const s = v.trim();
  if (s === "true") return true;
  if (s === "false") return false;
  if (/^[+-]?\d+(?:\.\d+)?$/.test(s)) {
    const num = Number(s);
    if (!Number.isNaN(num)) return num;
  }
  return s; // fallback to raw string
}
```

JavaScript numbers are modelled by `Decimal`: the exact value `m / 10^e`.
A JS number whose `String(..)` rendering matches the plain decimal
pattern of the regex corresponds to exactly one *canonical* `Decimal`
(no trailing fractional zeros, i.e. `e = 0 ∨ m % 10 ≠ 0`), and
`String(..)` on it is `renderDecimal`.  `Number(s)` on a string matched
by the pattern is exact in this domain and never NaN, so the
`Number.isNaN` guard of the source is never taken on the matched path. -/

structure Decimal where
  m : Int
  e : Nat
  deriving Repr, DecidableEq

/-- Canonical decimals: the unique representation a JS number has. -/
def Decimal.canonical (d : Decimal) : Prop := d.e = 0 ∨ d.m % 10 ≠ 0

inductive JSValue where
  | vnull
  | vbool (b : Bool)
  | vnum (d : Decimal)
  | vstr (s : String)
  deriving Repr, DecidableEq

def digitChar (d : Nat) : Char := Char.ofNat (48 + d)

def isDigitChar (c : Char) : Bool := 48 ≤ c.toNat && c.toNat ≤ 57

/-- Decimal rendering of a natural number (`String(n)`). -/
def renderNat (n : Nat) : List Char :=
  if n = 0 then ['0'] else ((Nat.digits 10 n).map digitChar).reverse

/-- `String(v)` for a JS number given as a canonical `Decimal`: optional
`-` sign, integer part, and — when `e ≠ 0` — a `.` followed by exactly
`e` fraction digits. -/
def renderDecimal (d : Decimal) : List Char :=
  let a := d.m.natAbs
  let sign : List Char := if d.m < 0 then ['-'] else []
  if d.e = 0 then sign ++ renderNat a
  else
    let fracCore := renderNat (a % 10 ^ d.e)
    sign ++ renderNat (a / 10 ^ d.e) ++
      '.' :: (List.replicate (d.e - fracCore.length) '0' ++ fracCore)

/-- Strip trailing fractional zeros: the canonicalization JS performs
when `Number(..)` produces a value (`0.50` and `0.5` are the same
number). -/
def canonDecimal : Int → Nat → Decimal
  | m, 0 => ⟨m, 0⟩
  | m, e + 1 => if m % 10 = 0 then canonDecimal (m / 10) e else ⟨m, e + 1⟩

def parseNatChars (cs : List Char) : Nat :=
  cs.foldl (fun a c => a * 10 + (c.toNat - 48)) 0

def jsIsWhitespace (c : Char) : Bool :=
  c = ' ' || c = '\t' || c = '\n' || c = '\r' || c = '\x0b' || c = '\x0c'

/-- JavaScript `s.trim()`. -/
def jsTrimChars (cs : List Char) : List Char :=
  ((cs.dropWhile jsIsWhitespace).reverse.dropWhile jsIsWhitespace).reverse

def jsTrim (s : String) : String := .mk (jsTrimChars s.data)

/-- Strip the optional leading sign; returns (isNegative, remainder). -/
def stripSign (cs : List Char) : Bool × List Char :=
  match cs with
  | c :: rest => if c = '+' || c = '-' then (c = '-', rest) else (false, cs)
  | [] => (false, [])

/-- The regex `^[+-]?\d+(?:\.\d+)?$`. -/
def numPattern (cs : List Char) : Bool :=
  let s := stripSign cs
  let ip := s.2.takeWhile isDigitChar
  let rest := s.2.dropWhile isDigitChar
  !ip.isEmpty &&
    (rest.isEmpty ||
      (rest.head? = some '.' && !rest.tail.isEmpty && rest.tail.all isDigitChar))

/-- `Number(s)` on a string matched by `numPattern` (exact in the
plain-decimal domain). -/
def jsNumberOfMatched (cs : List Char) : Decimal :=
  let s := stripSign cs
  let ip := s.2.takeWhile isDigitChar
  let rest := s.2.dropWhile isDigitChar
  let fp := if rest.head? = some '.' then rest.tail else []
  let mant : Int :=
    (parseNatChars ip * 10 ^ fp.length + parseNatChars fp : Nat)
  canonDecimal (if s.1 then -mant else mant) fp.length

def toStoredValue : JSValue → Option String
  | .vnull => none
  | .vstr s => some s
  | .vnum d => some (.mk (renderDecimal d))
  | .vbool b => some (cond b "true" "false")

def parseStoredValue (v : Option String) : JSValue :=
  match v with
  | none => .vnull
  | some str =>
    let s := jsTrim str
    if s = "true" then .vbool true
    else if s = "false" then .vbool false
    else if numPattern s.data then .vnum (jsNumberOfMatched s.data)
    else .vstr s

/-! ### Digit-string lemmas for the stored-value round trip -/

theorem digitChar_toNat {d : Nat} (h : d < 10) :
    (digitChar d).toNat = 48 + d := by
  interval_cases d <;> rfl

theorem digitChar_bounds {d : Nat} (h : d < 10) :
    48 ≤ (digitChar d).toNat ∧ (digitChar d).toNat ≤ 57 := by
  rw [digitChar_toNat h]; omega

theorem isDigitChar_digitChar {d : Nat} (h : d < 10) :
    isDigitChar (digitChar d) = true := by
  have := digitChar_bounds h
  simp [isDigitChar]; omega

theorem renderNat_bounds {n : Nat} : ∀ c ∈ renderNat n,
    48 ≤ c.toNat ∧ c.toNat ≤ 57 := by
  intro c hc
  unfold renderNat at hc
  by_cases hn : n = 0
  · rw [if_pos hn] at hc
    simp only [List.mem_singleton] at hc
    subst hc; exact ⟨by decide, by decide⟩
  · rw [if_neg hn] at hc
    rw [List.mem_reverse, List.mem_map] at hc
    obtain ⟨d, hd, rfl⟩ := hc
    exact digitChar_bounds (Nat.digits_lt_base (by norm_num) hd)

theorem renderNat_all_digits {n : Nat} : ∀ c ∈ renderNat n,
    isDigitChar c = true := by
  intro c hc
  have := renderNat_bounds c hc
  simp [isDigitChar]; omega

theorem renderNat_ne_nil (n : Nat) : renderNat n ≠ [] := by
  unfold renderNat
  by_cases hn : n = 0
  · rw [if_pos hn]; simp
  · rw [if_neg hn]
    simp only [ne_eq, List.reverse_eq_nil_iff, List.map_eq_nil]
    exact Nat.digits_ne_nil_iff_ne_zero.mpr hn

theorem parseNatChars_append_singleton (xs : List Char) (c : Char) :
    parseNatChars (xs ++ [c]) = parseNatChars xs * 10 + (c.toNat - 48) := by
  simp [parseNatChars, List.foldl_append]

theorem parseNatChars_rev_map (l : List Nat) (h : ∀ x ∈ l, x < 10) :
    parseNatChars ((l.map digitChar).reverse) = Nat.ofDigits 10 l := by
  induction l with
  | nil => simp [parseNatChars, Nat.ofDigits]
  | cons d t ih =>
    rw [List.map_cons, List.reverse_cons, parseNatChars_append_singleton,
      ih (fun x hx => h x (by simp [hx])),
      digitChar_toNat (h d (by simp)), Nat.ofDigits_cons]
    omega

theorem parseNatChars_renderNat (n : Nat) :
    parseNatChars (renderNat n) = n := by
  unfold renderNat
  by_cases hn : n = 0
  · rw [if_pos hn]; subst hn; rfl
  · rw [if_neg hn,
      parseNatChars_rev_map _ (fun x hx => Nat.digits_lt_base (by norm_num) hx),
      Nat.ofDigits_digits]

theorem parseNatChars_replicate_zero (k : Nat) (cs : List Char) :
    parseNatChars (List.replicate k '0' ++ cs) = parseNatChars cs := by
  induction k with
  | zero => simp
  | succ k ih =>
    rw [List.replicate_succ, List.cons_append]
    show parseNatChars (List.replicate k '0' ++ cs) = _
    exact ih

theorem renderNat_length_le {n e : Nat} (he : 1 ≤ e) (h : n < 10 ^ e) :
    (renderNat n).length ≤ e := by
  unfold renderNat
  by_cases hn : n = 0
  · rw [if_pos hn]; simpa using he
  · rw [if_neg hn]
    simp only [List.length_reverse, List.length_map]
    by_contra hlen
    push_neg at hlen
    have h1 : 10 ^ (Nat.digits 10 n).length ≤ 10 * n :=
      Nat.base_pow_length_digits_le 10 n (by norm_num) hn
    have h2 : (10 : Nat) ^ (e + 1) ≤ 10 ^ (Nat.digits 10 n).length :=
      Nat.pow_le_pow_right (by norm_num) (by omega)
    have h3 : (10 : Nat) ^ (e + 1) = 10 * 10 ^ e := by ring
    omega

theorem dropWhile_eq_self_of_not {p : Char → Bool} {cs : List Char}
    (h : ∀ c ∈ cs, p c = false) : cs.dropWhile p = cs := by
  cases cs with
  | nil => rfl
  | cons c t =>
    rw [List.dropWhile_cons, if_neg (by simp [h c (by simp)])]

theorem jsTrimChars_eq_self {cs : List Char}
    (h : ∀ c ∈ cs, jsIsWhitespace c = false) : jsTrimChars cs = cs := by
  unfold jsTrimChars
  rw [dropWhile_eq_self_of_not h,
    dropWhile_eq_self_of_not (fun c hc => h c (List.mem_reverse.mp hc)),
    List.reverse_reverse]

theorem not_ws_of_toNat_ge {c : Char} (h : 43 ≤ c.toNat) :
    jsIsWhitespace c = false := by
  simp only [jsIsWhitespace, Bool.or_eq_false_iff]
  refine ⟨⟨⟨⟨⟨?_, ?_⟩, ?_⟩, ?_⟩, ?_⟩, ?_⟩ <;>
    · simp only [decide_eq_false_iff_not]
      intro hc
      subst hc
      revert h
      decide

theorem takeWhile_append_all (p : Char → Bool) (xs ys : List Char)
    (hxs : ∀ c ∈ xs, p c = true)
    (hys : ys = [] ∨ ∃ c t, ys = c :: t ∧ p c = false) :
    (xs ++ ys).takeWhile p = xs ∧ (xs ++ ys).dropWhile p = ys := by
  induction xs with
  | nil =>
    simp only [List.nil_append]
    rcases hys with rfl | ⟨c, t, rfl, hc⟩
    · exact ⟨rfl, rfl⟩
    · rw [List.takeWhile_cons, List.dropWhile_cons, if_neg (by simp [hc]),
        if_neg (by simp [hc])]
      exact ⟨rfl, rfl⟩
  | cons x xs ih =>
    obtain ⟨h1, h2⟩ := ih (fun c hc => hxs c (by simp [hc]))
    rw [List.cons_append, List.takeWhile_cons, List.dropWhile_cons,
      if_pos (by simp [hxs x (by simp)]), if_pos (by simp [hxs x (by simp)]),
      h1, h2]
    exact ⟨rfl, rfl⟩

/-- `stripSign`'s two behaviours. -/
theorem stripSign_neg (xs : List Char) : stripSign ('-' :: xs) = (true, xs) :=
  rfl

theorem stripSign_digit {c : Char} (h48 : 48 ≤ c.toNat) (xs : List Char) :
    stripSign (c :: xs) = (false, c :: xs) := by
  have h1 : c ≠ '+' := fun hh => by subst hh; revert h48; decide
  have h2 : c ≠ '-' := fun hh => by subst hh; revert h48; decide
  simp [stripSign, h1, h2]

theorem takeWhile_renderNat (n : Nat) :
    (renderNat n).takeWhile isDigitChar = renderNat n ∧
    (renderNat n).dropWhile isDigitChar = [] := by
  have := takeWhile_append_all isDigitChar (renderNat n) []
    renderNat_all_digits (Or.inl rfl)
  simpa using this

theorem takeWhile_renderNat_dot (n : Nat) (rest : List Char) :
    (renderNat n ++ '.' :: rest).takeWhile isDigitChar = renderNat n ∧
    (renderNat n ++ '.' :: rest).dropWhile isDigitChar = '.' :: rest :=
  takeWhile_append_all isDigitChar (renderNat n) ('.' :: rest)
    renderNat_all_digits (Or.inr ⟨'.', rest, rfl, by decide⟩)

theorem canonDecimal_eq_self {m : Int} {e : Nat} (h : e = 0 ∨ m % 10 ≠ 0) :
    canonDecimal m e = ⟨m, e⟩ := by
  cases e with
  | zero => rfl
  | succ e' =>
    rcases h with h | h
    · exact absurd h (by simp)
    · unfold canonDecimal
      rw [if_neg h]

theorem signed_natAbs (m : Int) :
    (if m < 0 then -(m.natAbs : Int) else (m.natAbs : Int)) = m := by
  by_cases hm : m < 0
  · rw [if_pos hm, Int.ofNat_natAbs_of_nonpos (le_of_lt hm), neg_neg]
  · rw [if_neg hm, Int.natAbs_of_nonneg (not_lt.mp hm)]

/-- The rendering of a canonical decimal matches the numeric regex and
`Number(..)` maps it back to the same decimal. -/
theorem numPattern_render (m : Int) (e : Nat) (hc : e = 0 ∨ m % 10 ≠ 0) :
    numPattern (renderDecimal ⟨m, e⟩) = true ∧
    jsNumberOfMatched (renderDecimal ⟨m, e⟩) = ⟨m, e⟩ := by
  by_cases he : e = 0
  · subst he
    have hrender0 : renderDecimal ⟨m, (0 : Nat)⟩
        = (if m < 0 then ['-'] else []) ++ renderNat m.natAbs := by
      unfold renderDecimal
      simp
    rw [hrender0]
    have hstrip : stripSign ((if m < 0 then ['-'] else [])
        ++ renderNat m.natAbs)
        = (decide (m < 0), renderNat m.natAbs) := by
      by_cases hm : m < 0
      · rw [if_pos hm, List.singleton_append, stripSign_neg]
        simp [hm]
      · rw [if_neg hm, List.nil_append]
        cases hcs : renderNat m.natAbs with
        | nil => exact absurd hcs (renderNat_ne_nil _)
        | cons c t =>
          have hc48 := (renderNat_bounds c (by rw [hcs]; simp)).1
          rw [stripSign_digit hc48]
          simp [hm]
    obtain ⟨htake, hdrop⟩ := takeWhile_renderNat m.natAbs
    constructor
    · simp only [numPattern, hstrip, htake, hdrop]
      simp [renderNat_ne_nil]
    · simp only [jsNumberOfMatched, hstrip, htake, hdrop]
      rw [if_neg (by decide : ¬(List.head? ([] : List Char) = some '.'))]
      rw [parseNatChars_renderNat]
      show canonDecimal _ 0 = _
      unfold canonDecimal
      simp only [decide_eq_true_eq, List.length_nil, pow_zero,
        Decimal.mk.injEq, and_true]
      rw [show parseNatChars [] = 0 from rfl]
      rw [show (((m.natAbs * 1 + 0 : Nat) : Int)) = (m.natAbs : Int) by
        push_cast; ring]
      exact signed_natAbs m
  · have hm10 : m % 10 ≠ 0 := hc.resolve_left he
    have he1 : 1 ≤ e := Nat.one_le_iff_ne_zero.mpr he
    have hrenderS : renderDecimal ⟨m, e⟩
        = (if m < 0 then ['-'] else []) ++
          (renderNat (m.natAbs / 10 ^ e) ++ '.' ::
            (List.replicate (e - (renderNat (m.natAbs % 10 ^ e)).length) '0'
              ++ renderNat (m.natAbs % 10 ^ e))) := by
      unfold renderDecimal
      rw [if_neg he]
      simp [List.append_assoc]
    rw [hrenderS]
    have hstrip : stripSign ((if m < 0 then ['-'] else []) ++
        (renderNat (m.natAbs / 10 ^ e) ++ '.' ::
          (List.replicate (e - (renderNat (m.natAbs % 10 ^ e)).length) '0'
            ++ renderNat (m.natAbs % 10 ^ e))))
        = (decide (m < 0),
           renderNat (m.natAbs / 10 ^ e) ++ '.' ::
            (List.replicate (e - (renderNat (m.natAbs % 10 ^ e)).length) '0'
              ++ renderNat (m.natAbs % 10 ^ e))) := by
      by_cases hm : m < 0
      · rw [if_pos hm, List.singleton_append, stripSign_neg]
        simp [hm]
      · rw [if_neg hm, List.nil_append]
        cases hcs : renderNat (m.natAbs / 10 ^ e) with
        | nil => exact absurd hcs (renderNat_ne_nil _)
        | cons c t =>
          have hc48 := (renderNat_bounds c (by rw [hcs]; simp)).1
          rw [List.cons_append, stripSign_digit hc48, ← List.cons_append]
          simp [hm]
    obtain ⟨htake, hdrop⟩ := takeWhile_renderNat_dot (m.natAbs / 10 ^ e)
      (List.replicate (e - (renderNat (m.natAbs % 10 ^ e)).length) '0'
        ++ renderNat (m.natAbs % 10 ^ e))
    have hfpne : (List.replicate (e - (renderNat (m.natAbs % 10 ^ e)).length)
        '0' ++ renderNat (m.natAbs % 10 ^ e)) ≠ [] := by
      simp [renderNat_ne_nil]
    have hfpall : (List.replicate (e - (renderNat (m.natAbs % 10 ^ e)).length)
        '0' ++ renderNat (m.natAbs % 10 ^ e)).all isDigitChar = true := by
      rw [List.all_append, Bool.and_eq_true]
      constructor
      · rw [List.all_eq_true]
        intro x hx
        rw [List.eq_of_mem_replicate hx]
        decide
      · rw [List.all_eq_true]
        exact renderNat_all_digits
    have hlenR : (renderNat (m.natAbs % 10 ^ e)).length ≤ e :=
      renderNat_length_le he1
        (Nat.mod_lt _ (Nat.pos_pow_of_pos e (by norm_num)))
    have hlen : (List.replicate (e - (renderNat (m.natAbs % 10 ^ e)).length)
        '0' ++ renderNat (m.natAbs % 10 ^ e)).length = e := by
      rw [List.length_append, List.length_replicate]
      omega
    have hparsefp : parseNatChars
        (List.replicate (e - (renderNat (m.natAbs % 10 ^ e)).length) '0'
          ++ renderNat (m.natAbs % 10 ^ e)) = m.natAbs % 10 ^ e := by
      rw [parseNatChars_replicate_zero, parseNatChars_renderNat]
    constructor
    · simp only [numPattern, hstrip, htake, hdrop]
      simp [renderNat_ne_nil, hfpne, hfpall]
    · simp only [jsNumberOfMatched, hstrip, htake, hdrop]
      simp only [List.head?_cons, List.tail_cons, reduceIte]
      rw [hlen, hparsefp, parseNatChars_renderNat]
      rw [show ((m.natAbs / 10 ^ e * 10 ^ e + m.natAbs % 10 ^ e : Nat) : Int)
          = (m.natAbs : Int) by
        have h := Nat.div_add_mod m.natAbs (10 ^ e)
        push_cast
        push_cast at h
        linarith]
      have hsig : (if decide (m < 0) = true then -(m.natAbs : Int)
          else (m.natAbs : Int)) = m := by
        simp only [decide_eq_true_eq]
        exact signed_natAbs m
      rw [hsig, canonDecimal_eq_self (Or.inr hm10)]

/-- Every character of a rendered decimal lies in `['-', '.', '0'..'9']`
(code points 45–57). -/
theorem renderDecimal_bounds (m : Int) (e : Nat) :
    ∀ c ∈ renderDecimal ⟨m, e⟩, 45 ≤ c.toNat ∧ c.toNat ≤ 57 := by
  intro c hcmem
  have hsign : ∀ x ∈ (if m < 0 then ['-'] else ([] : List Char)),
      45 ≤ x.toNat ∧ x.toNat ≤ 57 := by
    intro x hx
    by_cases hm : m < 0
    · rw [if_pos hm] at hx
      simp only [List.mem_singleton] at hx
      subst hx
      exact ⟨by decide, by decide⟩
    · rw [if_neg hm] at hx
      exact absurd hx (List.not_mem_nil x)
  by_cases he : e = 0
  · subst he
    have h0 : renderDecimal ⟨m, (0 : Nat)⟩
        = (if m < 0 then ['-'] else []) ++ renderNat m.natAbs := by
      unfold renderDecimal
      simp
    rw [h0, List.mem_append] at hcmem
    rcases hcmem with hcm | hcm
    · exact hsign c hcm
    · have := renderNat_bounds c hcm
      omega
  · have hS : renderDecimal ⟨m, e⟩
        = (if m < 0 then ['-'] else []) ++
          (renderNat (m.natAbs / 10 ^ e) ++ '.' ::
            (List.replicate (e - (renderNat (m.natAbs % 10 ^ e)).length) '0'
              ++ renderNat (m.natAbs % 10 ^ e))) := by
      unfold renderDecimal
      rw [if_neg he]
      simp [List.append_assoc]
    rw [hS, List.mem_append] at hcmem
    rcases hcmem with hcm | hcm
    · exact hsign c hcm
    · rw [List.mem_append, List.mem_cons] at hcm
      rcases hcm with hcm | hcm | hcm
      · have := renderNat_bounds c hcm
        omega
      · subst hcm
        exact ⟨by decide, by decide⟩
      · rw [List.mem_append] at hcm
        rcases hcm with hcm | hcm
        · rw [List.eq_of_mem_replicate hcm]
          exact ⟨by decide, by decide⟩
        · have := renderNat_bounds c hcm
          omega

theorem renderDecimal_trim (m : Int) (e : Nat) :
    jsTrimChars (renderDecimal ⟨m, e⟩) = renderDecimal ⟨m, e⟩ :=
  jsTrimChars_eq_self (fun c hc =>
    not_ws_of_toNat_ge (by have := (renderDecimal_bounds m e c hc).1; omega))

theorem renderDecimal_ne_true_chars (m : Int) (e : Nat) :
    renderDecimal ⟨m, e⟩ ≠ "true".data ∧
    renderDecimal ⟨m, e⟩ ≠ "false".data := by
  constructor
  · intro h
    have hmem : 't' ∈ renderDecimal ⟨m, e⟩ := by
      rw [h]; decide
    have := (renderDecimal_bounds m e 't' hmem).2
    revert this; decide
  · intro h
    have hmem : 'f' ∈ renderDecimal ⟨m, e⟩ := by
      rw [h]; decide
    have := (renderDecimal_bounds m e 'f' hmem).2
    revert this; decide

/-- Every character of a string matched by the numeric regex lies in
`['+', '-', '.', '0'..'9']` (code points 43–57). -/
theorem numPattern_bounds (cs : List Char) (h : numPattern cs = true) :
    ∀ c ∈ cs, 43 ≤ c.toNat ∧ c.toNat ≤ 57 := by
  have hbody : ∀ body : List Char,
      (!(body.takeWhile isDigitChar).isEmpty &&
        ((body.dropWhile isDigitChar).isEmpty ||
          ((body.dropWhile isDigitChar).head? = some '.' &&
            !(body.dropWhile isDigitChar).tail.isEmpty &&
            (body.dropWhile isDigitChar).tail.all isDigitChar))) = true →
      ∀ c ∈ body, 43 ≤ c.toNat ∧ c.toNat ≤ 57 := by
    intro body hb c hcm
    have hcm2 : c ∈ body.takeWhile isDigitChar ++ body.dropWhile isDigitChar := by
      rw [List.takeWhile_append_dropWhile]
      exact hcm
    rw [List.mem_append] at hcm2
    rcases hcm2 with hcm | hcm
    · have := List.mem_takeWhile_imp hcm
      simp only [isDigitChar, Bool.and_eq_true, decide_eq_true_eq] at this
      omega
    · rw [Bool.and_eq_true, Bool.or_eq_true] at hb
      rcases hb.2 with hemp | hrest
      · rw [List.isEmpty_iff] at hemp
        rw [hemp] at hcm
        exact absurd hcm (List.not_mem_nil c)
      · rw [Bool.and_eq_true, Bool.and_eq_true] at hrest
        obtain ⟨⟨hhead, _⟩, hall⟩ := hrest
        rw [decide_eq_true_eq] at hhead
        cases hr : body.dropWhile isDigitChar with
        | nil => rw [hr] at hcm; exact absurd hcm (List.not_mem_nil c)
        | cons r0 rt =>
          rw [hr] at hcm hhead hall
          simp only [List.head?_cons, Option.some.injEq] at hhead
          subst hhead
          rw [List.mem_cons] at hcm
          rcases hcm with rfl | hcm
          · exact ⟨by decide, by decide⟩
          · rw [List.tail_cons, List.all_eq_true] at hall
            have := hall c hcm
            simp only [isDigitChar, Bool.and_eq_true, decide_eq_true_eq]
              at this
            omega
  intro c hcm
  cases cs with
  | nil => exact absurd hcm (List.not_mem_nil c)
  | cons c0 rest =>
    unfold numPattern stripSign at h
    dsimp only at h
    by_cases hsig : (c0 = '+' || c0 = '-') = true
    · rw [if_pos hsig] at h
      rw [List.mem_cons] at hcm
      rcases hcm with rfl | hcm
      · rw [Bool.or_eq_true, decide_eq_true_eq, decide_eq_true_eq] at hsig
        rcases hsig with rfl | rfl
        · exact ⟨by decide, by decide⟩
        · exact ⟨by decide, by decide⟩
      · exact hbody rest h c hcm
    · rw [if_neg hsig] at h
      exact hbody (c0 :: rest) h c hcm

/-- **C9** — The stored-value round trip (`toStoredValue` then
`parseStoredValue`) is the identity for every boolean and for every
number whose decimal rendering matches the pattern of an optionally
signed integer or simple decimal fraction (every canonical `Decimal`),
but it is **not** the identity on strings: a string that lexically equals
`"true"`, `"false"`, or such a decimal numeral comes back as a boolean
or a number — a value of different type from the original string. -/
theorem stored_value_roundtrip :
    (∀ b, parseStoredValue (toStoredValue (.vbool b)) = .vbool b) ∧
    (∀ d : Decimal, d.canonical →
      parseStoredValue (toStoredValue (.vnum d)) = .vnum d) ∧
    (∀ s : String, (s = "true" ∨ s = "false" ∨ numPattern s.data = true) →
      parseStoredValue (toStoredValue (.vstr s)) ≠ .vstr s ∧
      ((∃ b, parseStoredValue (toStoredValue (.vstr s)) = .vbool b) ∨
       (∃ d, parseStoredValue (toStoredValue (.vstr s)) = .vnum d))) := by
  refine ⟨?_, ?_, ?_⟩
  · intro b
    cases b <;> rfl
  · intro d hc
    obtain ⟨m, e⟩ := d
    have hc' : e = 0 ∨ m % 10 ≠ 0 := hc
    obtain ⟨hpat, hval⟩ := numPattern_render m e hc'
    have htrim : jsTrim (String.mk (renderDecimal ⟨m, e⟩))
        = String.mk (renderDecimal ⟨m, e⟩) := by
      unfold jsTrim
      rw [show (String.mk (renderDecimal ⟨m, e⟩)).data
          = renderDecimal ⟨m, e⟩ from rfl, renderDecimal_trim]
    have hne1 : ¬(String.mk (renderDecimal ⟨m, e⟩) = "true") := by
      intro hh
      exact (renderDecimal_ne_true_chars m e).1 (congrArg String.data hh)
    have hne2 : ¬(String.mk (renderDecimal ⟨m, e⟩) = "false") := by
      intro hh
      exact (renderDecimal_ne_true_chars m e).2 (congrArg String.data hh)
    have hpat' : numPattern (String.mk (renderDecimal ⟨m, e⟩)).data
        = true := hpat
    have hval' : jsNumberOfMatched (String.mk (renderDecimal ⟨m, e⟩)).data
        = ⟨m, e⟩ := hval
    show parseStoredValue (some (String.mk (renderDecimal ⟨m, e⟩)))
      = JSValue.vnum ⟨m, e⟩
    unfold parseStoredValue
    dsimp only
    rw [htrim, if_neg hne1, if_neg hne2, if_pos hpat', hval']
  · intro s hs
    show parseStoredValue (some s) ≠ JSValue.vstr s ∧
      ((∃ b, parseStoredValue (some s) = JSValue.vbool b) ∨
       (∃ d, parseStoredValue (some s) = JSValue.vnum d))
    unfold parseStoredValue
    dsimp only
    by_cases h1 : jsTrim s = "true"
    · rw [if_pos h1]
      exact ⟨by simp, Or.inl ⟨true, rfl⟩⟩
    · rw [if_neg h1]
      by_cases h2 : jsTrim s = "false"
      · rw [if_pos h2]
        exact ⟨by simp, Or.inl ⟨false, rfl⟩⟩
      · rw [if_neg h2]
        have hpat : numPattern s.data = true := by
          rcases hs with rfl | rfl | hp
          · exact absurd (by decide : jsTrim "true" = "true") h1
          · exact absurd (by decide : jsTrim "false" = "false") h2
          · exact hp
        have htrim : jsTrim s = s := by
          unfold jsTrim
          rw [jsTrimChars_eq_self (fun c hc =>
            not_ws_of_toNat_ge (numPattern_bounds s.data hpat c hc).1)]
        have hpat2 : numPattern (jsTrim s).data = true := by
          rw [htrim]; exact hpat
        rw [if_pos hpat2]
        exact ⟨by simp, Or.inr ⟨jsNumberOfMatched (jsTrim s).data, rfl⟩⟩

/-- Witness for C9: `false` and `-3.5` round-trip unchanged; the string
`"42"` matches the numeric pattern and does not round-trip as a
string. -/
theorem stored_value_roundtrip_witness :
    parseStoredValue (toStoredValue (.vbool false)) = .vbool false ∧
    parseStoredValue (toStoredValue (.vnum ⟨-35, 1⟩)) = .vnum ⟨-35, 1⟩ ∧
    parseStoredValue (toStoredValue (.vstr "42")) ≠ .vstr "42" :=
  ⟨stored_value_roundtrip.1 false,
   stored_value_roundtrip.2.1 ⟨-35, 1⟩ (Or.inr (by decide)),
   (stored_value_roundtrip.2.2 "42" (Or.inr (Or.inr (by decide)))).1⟩

end SparkplugExplorer
